import Mathlib

/-!
Verification development for the `opcuad` gateway (`src/main.rs`).

The program is a TCP server bridging a line-delimited JSON protocol to an
external OPC-UA client library.  This file gives a shallow embedding of the
program's pure core: the JSON codec used by `serde_json` on the `Request` and
`Response` types, the byte-stream framer of `handle_client`, and the
per-connection state machine of `handle_request`.  The external OPC-UA client
(`opcua_client` crate) is out of scope of the source and is represented by an
oracle (`Gateway`) matching the interface the code consumes.
-/

namespace Opcuad

/-! ## JSON values

`serde_json` works with a tree of JSON values.  We embed the fragment the
program can produce and consume: null, booleans, integer numbers, strings,
arrays and objects (an object is a field list in serialization order).
Fractional and exponent number forms are not modelled (no request field and no
error message uses them); `serde_json` would accept them where we reject. -/

inductive Json where
  | null : Json
  | bool : Bool → Json
  | num : Int → Json
  | str : String → Json
  | arr : List Json → Json
  | obj : List (String × Json) → Json
deriving Repr

/-- Decimal digits of `n`, most significant first, as characters
(fuel-indexed so that it evaluates by kernel reduction). -/
def natCharsAux : Nat → Nat → List Char
  | 0, _ => []
  | fuel + 1, n =>
    if n < 10 then [Nat.digitChar n]
    else natCharsAux fuel (n / 10) ++ [Nat.digitChar (n % 10)]

/-- Decimal digits of `n`, most significant first, as characters. -/
def natChars (n : Nat) : List Char := natCharsAux (n + 1) n

/-- Rendering of a JSON integer, as `serde_json` prints an `i64`/`u64`. -/
def renderNum (i : Int) : List Char :=
  if i < 0 then '-' :: natChars i.natAbs else natChars i.toNat

/-- `serde_json` escaping of one character inside a JSON string literal:
quote and backslash get a backslash escape, the five short control escapes are
used for 0x08/0x09/0x0A/0x0C/0x0D, any other control character below 0x20 is
written as a hexadecimal escape, and everything else is passed through. -/
def escapeChar (c : Char) : List Char :=
  if c = '"' then ['\\', '"']
  else if c = '\\' then ['\\', '\\']
  else if c.toNat = 8 then ['\\', 'b']
  else if c.toNat = 9 then ['\\', 't']
  else if c.toNat = 10 then ['\\', 'n']
  else if c.toNat = 12 then ['\\', 'f']
  else if c.toNat = 13 then ['\\', 'r']
  else if c.toNat < 32 then
    ['\\', 'u', '0', '0', Nat.digitChar (c.toNat / 16), Nat.digitChar (c.toNat % 16)]
  else [c]

/-- Escape a whole string body. -/
def escapeStr (s : List Char) : List Char := (s.map escapeChar).flatten

mutual

/-- Compact rendering of a JSON value, exactly as `serde_json::to_string`
prints it (no inserted whitespace, fields in order). -/
def renderJson : Json → List Char
  | .num i => renderNum i
  | .str s => '"' :: (escapeStr s.data ++ ['"'])
  | .arr xs => '[' :: (renderElems xs ++ [']'])
  | .obj fs => '{' :: (renderMembers fs ++ ['}'])
  | .bool false => ['f', 'a', 'l', 's', 'e']
  | .bool true => ['t', 'r', 'u', 'e']
  | .null => ['n', 'u', 'l', 'l']

/-- Comma-separated rendering of array elements. -/
def renderElems : List Json → List Char
  | [] => []
  | x :: rest =>
    match rest with
    | [] => renderJson x
    | _ :: _ => renderJson x ++ ',' :: renderElems rest

/-- Comma-separated rendering of object members. -/
def renderMembers : List (String × Json) → List Char
  | [] => []
  | (k, v) :: rest =>
    match rest with
    | [] => '"' :: (escapeStr k.data ++ '"' :: ':' :: renderJson v)
    | _ :: _ =>
      ('"' :: (escapeStr k.data ++ '"' :: ':' :: renderJson v)) ++ ',' :: renderMembers rest

end

/-! ## JSON parsing

A recursive-descent parser for the same fragment, modelling
`serde_json::from_str`'s lexical layer: whitespace is space, tab, newline and
carriage return; string escapes are the JSON ones including `\uXXXX` with
surrogate pairs; numbers are optionally signed digit runs. -/

/-- JSON insignificant whitespace. -/
def isWsChar (c : Char) : Bool := c = ' ' ∨ c = '\t' ∨ c = '\n' ∨ c = '\r'

/-- Skip leading whitespace. -/
def skipWs : List Char → List Char
  | [] => []
  | c :: cs => if isWsChar c then skipWs cs else c :: cs

/-- Value of one hexadecimal digit. -/
def hexVal (c : Char) : Option Nat :=
  if '0' ≤ c ∧ c ≤ '9' then some (c.toNat - 48)
  else if 'a' ≤ c ∧ c ≤ 'f' then some (c.toNat - 87)
  else if 'A' ≤ c ∧ c ≤ 'F' then some (c.toNat - 55)
  else none

/-- Value of a four-digit hexadecimal escape. -/
def hex4 (h1 h2 h3 h4 : Char) : Option Nat :=
  match hexVal h1, hexVal h2, hexVal h3, hexVal h4 with
  | some a, some b, some c, some d => some (a * 4096 + b * 256 + c * 16 + d)
  | _, _, _, _ => none

/-- The character denoted by a single-character escape, if legal. -/
def escCharOf (e : Char) : Option Char :=
  if e = '"' then some '"'
  else if e = '\\' then some '\\'
  else if e = '/' then some '/'
  else if e = 'b' then some (Char.ofNat 8)
  else if e = 't' then some (Char.ofNat 9)
  else if e = 'n' then some (Char.ofNat 10)
  else if e = 'f' then some (Char.ofNat 12)
  else if e = 'r' then some (Char.ofNat 13)
  else none

/-- Parse the body of a string literal after its opening quote; returns the
decoded characters and the input after the closing quote.  Raw control
characters and malformed escapes are rejected, as `serde_json` rejects them.
(`serde_json` additionally accepts paired surrogate `\uXXXX` escapes for
astral characters; those never occur in rendered output and are not
modelled — a surrogate escape is rejected here.) -/
def parseStringBody : List Char → Option (List Char × List Char)
  | [] => none
  | '"' :: cs => some ([], cs)
  | '\\' :: 'u' :: h1 :: h2 :: h3 :: h4 :: cs3 =>
    match hex4 h1 h2 h3 h4 with
    | none => none
    | some v =>
      if v < 0xD800 ∨ 0xDFFF < v then
        (parseStringBody cs3).map (fun p => (Char.ofNat v :: p.1, p.2))
      else none
  | '\\' :: e :: cs2 =>
    match escCharOf e with
    | some ec => (parseStringBody cs2).map (fun p => (ec :: p.1, p.2))
    | none => none
  | '\\' :: [] => none
  | c :: cs =>
    if c.toNat < 32 then none
    else (parseStringBody cs).map (fun p => (c :: p.1, p.2))

/-- Consume a maximal run of decimal digits, folding them onto `acc`. -/
def parseDigitsAux (acc : Nat) : List Char → Nat × List Char
  | [] => (acc, [])
  | c :: cs =>
    if c.isDigit then parseDigitsAux (10 * acc + (c.toNat - 48)) cs else (acc, c :: cs)

/-- Parse a nonempty run of decimal digits. -/
def parseNat : List Char → Option (Nat × List Char)
  | [] => none
  | c :: cs => if c.isDigit then some (parseDigitsAux 0 (c :: cs)) else none

/-- Match an expected literal character sequence. -/
def expectChars : List Char → List Char → Option (List Char)
  | [], rest => some rest
  | p :: ps, c :: cs => if c = p then expectChars ps cs else none
  | _ :: _, [] => none

mutual

/-- Parse one JSON value: skip leading whitespace, then dispatch on the first
token character (fuel-indexed to bound nesting). -/
def parseV : Nat → List Char → Option (Json × List Char)
  | 0, _ => none
  | Nat.succ fuel, cs => parseVTok fuel (skipWs cs)

/-- Dispatch on the first character of a whitespace-stripped value. -/
def parseVTok : Nat → List Char → Option (Json × List Char)
  | _, [] => none
  | _, 'n' :: cs2 => (expectChars ['u', 'l', 'l'] cs2).map (fun rest => (Json.null, rest))
  | _, 't' :: cs2 => (expectChars ['r', 'u', 'e'] cs2).map (fun rest => (Json.bool true, rest))
  | _, 'f' :: cs2 => (expectChars ['a', 'l', 's', 'e'] cs2).map (fun rest => (Json.bool false, rest))
  | _, '"' :: cs2 => (parseStringBody cs2).map (fun p => (Json.str (String.mk p.1), p.2))
  | _, '-' :: cs2 => (parseNat cs2).map (fun p => (Json.num (-(p.1 : Int)), p.2))
  | Nat.succ fuel, '[' :: cs2 =>
    (match skipWs cs2 with
     | [] => none
     | d :: cs3 =>
       if d = ']' then some (Json.arr [], cs3)
       else (parseElems fuel (d :: cs3)).map (fun p => (Json.arr p.1, p.2)))
  | Nat.succ fuel, '{' :: cs2 =>
    (match skipWs cs2 with
     | [] => none
     | d :: cs3 =>
       if d = '}' then some (Json.obj [], cs3)
       else (parseMembers fuel (d :: cs3)).map (fun p => (Json.obj p.1, p.2)))
  | _, c :: cs2 =>
    if c.isDigit then (parseNat (c :: cs2)).map (fun p => (Json.num (p.1 : Int), p.2))
    else none

/-- Parse the elements of a nonempty array, consuming the closing bracket. -/
def parseElems : Nat → List Char → Option (List Json × List Char)
  | 0, _ => none
  | Nat.succ fuel, cs =>
    match parseV fuel cs with
    | none => none
    | some (j, rest) =>
      match skipWs rest with
      | [] => none
      | c :: rest2 =>
        if c = ',' then (parseElems fuel rest2).map (fun p => (j :: p.1, p.2))
        else if c = ']' then some ([j], rest2)
        else none

/-- Parse the members of a nonempty object, consuming the closing brace.
The input must start at the opening quote of the first key. -/
def parseMembers : Nat → List Char → Option (List (String × Json) × List Char)
  | 0, _ => none
  | Nat.succ fuel, '"' :: cs2 =>
    (match parseStringBody cs2 with
     | none => none
     | some (k, rest) =>
       match skipWs rest with
       | [] => none
       | d :: rest2 =>
         if d = ':' then
           match parseV fuel rest2 with
           | none => none
           | some (v, rest3) =>
             match skipWs rest3 with
             | [] => none
             | e :: rest4 =>
               if e = ',' then
                 (parseMembers fuel (skipWs rest4)).map
                   (fun p => ((String.mk k, v) :: p.1, p.2))
               else if e = '}' then some ([(String.mk k, v)], rest4)
               else none
         else none)
  | Nat.succ _, _ => none

end

/-- Parse a complete JSON document, as `serde_json::from_str` does: one value
surrounded by optional whitespace, with no trailing content.  The fuel bound
is a modelling artifact; `2 * length + 2` covers every value whose text fits
in the input. -/
def jsonFromChars (cs : List Char) : Option Json :=
  match parseV (2 * cs.length + 2) cs with
  | none => none
  | some (j, rest) =>
    match skipWs rest with
    | [] => some j
    | _ :: _ => none

/-! ## UTF-8 -/

/-- UTF-8 encoding of one unicode scalar value, bytes as `Nat`. -/
def utf8Char (c : Char) : List Nat :=
  let v := c.toNat
  if v < 0x80 then [v]
  else if v < 0x800 then [0xC0 + v / 0x40, 0x80 + v % 0x40]
  else if v < 0x10000 then
    [0xE0 + v / 0x1000, 0x80 + v / 0x40 % 0x40, 0x80 + v % 0x40]
  else
    [0xF0 + v / 0x40000, 0x80 + v / 0x1000 % 0x40, 0x80 + v / 0x40 % 0x40, 0x80 + v % 0x40]

/-- UTF-8 encoding of a character sequence. -/
def utf8Str (cs : List Char) : List Nat := (cs.map utf8Char).flatten

mutual

/-- UTF-8 decoding with the validity checks of Rust's `String::from_utf8`:
continuation bytes must be `0x80-0xBF`, overlong forms, surrogate code points
and values beyond `0x10FFFF` are rejected. -/
def utf8Decode : List Nat → Option (List Char)
  | [] => some []
  | b1 :: rest =>
    if b1 < 0x80 then (utf8Decode rest).map (fun cs => Char.ofNat b1 :: cs)
    else if b1 < 0xC2 then none
    else if b1 < 0xE0 then utf8Cont1 (b1 - 0xC0) rest
    else if b1 < 0xF0 then utf8Cont2 (b1 - 0xE0) rest
    else if b1 < 0xF5 then utf8Cont3 (b1 - 0xF0) rest
    else none

/-- Decode the one continuation byte of a two-byte sequence.  The leading
byte's `0xC2` lower bound already excludes overlong forms. -/
def utf8Cont1 : Nat → List Nat → Option (List Char)
  | hi, b2 :: rest2 =>
    if 0x80 ≤ b2 ∧ b2 < 0xC0 then
      (utf8Decode rest2).map (fun cs => Char.ofNat (hi * 0x40 + (b2 - 0x80)) :: cs)
    else none
  | _, [] => none

/-- Decode the two continuation bytes of a three-byte sequence, rejecting
overlong forms and surrogates. -/
def utf8Cont2 : Nat → List Nat → Option (List Char)
  | hi, b2 :: b3 :: rest2 =>
    if 0x80 ≤ b2 ∧ b2 < 0xC0 ∧ 0x80 ≤ b3 ∧ b3 < 0xC0 then
      if 0x800 ≤ hi * 0x1000 + (b2 - 0x80) * 0x40 + (b3 - 0x80)
          ∧ (hi * 0x1000 + (b2 - 0x80) * 0x40 + (b3 - 0x80) < 0xD800
            ∨ 0xDFFF < hi * 0x1000 + (b2 - 0x80) * 0x40 + (b3 - 0x80)) then
        (utf8Decode rest2).map
          (fun cs => Char.ofNat (hi * 0x1000 + (b2 - 0x80) * 0x40 + (b3 - 0x80)) :: cs)
      else none
    else none
  | _, _ => none

/-- Decode the three continuation bytes of a four-byte sequence, rejecting
overlong forms and values beyond the last code point. -/
def utf8Cont3 : Nat → List Nat → Option (List Char)
  | hi, b2 :: b3 :: b4 :: rest2 =>
    if 0x80 ≤ b2 ∧ b2 < 0xC0 ∧ 0x80 ≤ b3 ∧ b3 < 0xC0 ∧ 0x80 ≤ b4 ∧ b4 < 0xC0 then
      if 0x10000 ≤ hi * 0x40000 + (b2 - 0x80) * 0x1000 + (b3 - 0x80) * 0x40 + (b4 - 0x80)
          ∧ hi * 0x40000 + (b2 - 0x80) * 0x1000 + (b3 - 0x80) * 0x40 + (b4 - 0x80)
            ≤ 0x10FFFF then
        (utf8Decode rest2).map
          (fun cs => Char.ofNat
            (hi * 0x40000 + (b2 - 0x80) * 0x1000 + (b3 - 0x80) * 0x40 + (b4 - 0x80)) :: cs)
      else none
    else none
  | _, _ => none

end

/-! ## Protocol data model (src/main.rs 10-45)

`DataValue` is the external client's opaque value payload; the core only
forwards it, and its wire form is whatever its own serialization produces, so
it is embedded as the JSON tree that serialization yields.  `Session` and the
`mpsc::Sender<SessionCommand>` are opaque external handles, embedded as
tokens. -/

def LINE_FEED : Nat := 0x0A

abbrev DataValue : Type := Json

structure Session where
  id : Nat
deriving DecidableEq, Repr

/-- Embeds `enum Request` with its serde attributes
(`tag = "type"`, `rename_all = "snake_case"`). -/
inductive Request where
  | Connect (host : String) (port : Nat) («namespace» : Nat) (endpoint : Option String)
  | Read (node_ids : List String)
deriving Repr, DecidableEq

/-- Embeds `enum Response`. -/
inductive Response where
  | ConnectOk
  | Error (message : String)
  | ReadOk (values : List DataValue)

/-- Embeds `struct Server`. -/
structure Server where
  host : String
  port : Nat
  «namespace» : Nat
  endpoint : Option String
deriving DecidableEq

/-- Embeds `struct State`; the command sender is an opaque channel token. -/
structure State where
  server : Option Server
  session : Option Session
  command_sender : Option Nat
deriving DecidableEq

/-- Embeds `NodeId::new(namespace, identifier)`; `ReadValueId` is obtained
from it by `.into()` and adds no information the read consumes. -/
structure NodeId where
  ns : Nat
  identifier : String
deriving Repr

/-- The external OPC-UA client library (`opcua_client` crate), out of scope of
the source, specified only by the interface the core consumes:
`connect_to_endpoint` opens a session against a URL or fails,
`Session::run_async` starts the background keep-alive task and returns the
command sender, and `Session::read` performs one batched read or fails. -/
structure Gateway where
  connect_to_endpoint : String → Except String Session
  run_async : Session → Nat
  read : Session → List NodeId → Except String (List DataValue)

/-! ## Request decoding (src/main.rs 137-147)

`parse_request` is `String::from_utf8` followed by
`serde_json::from_str::<Request>`.  The serde-derived deserializer for the
internally tagged `Request` is embedded below: the object must carry a string
`"type"` tag naming a known variant, the variant's fields are looked up by
name, unknown fields are ignored, `Option` fields may be absent or null, and
`u16` fields must be integers in range. -/

/-- Field lookup in a decoded JSON object. -/
def getField (fields : List (String × Json)) (key : String) : Option Json :=
  (fields.find? (fun p => p.1 == key)).map (fun p => p.2)

/-- Decode a JSON array of strings (the `node_ids` field). -/
def strList : List Json → Option (List String)
  | [] => some []
  | Json.str s :: rest => (strList rest).map (fun ss => s :: ss)
  | _ => none

/-- The serde-derived deserializer for `Request` applied to a parsed JSON
value. -/
def requestFromJson : Json → Option Request
  | Json.obj fields =>
    match getField fields "type" with
    | some (Json.str tag) =>
      if tag = "connect" then
        match getField fields "host", getField fields "port", getField fields "namespace" with
        | some (Json.str host), some (Json.num port), some (Json.num ns) =>
          if 0 ≤ port ∧ port < 65536 ∧ 0 ≤ ns ∧ ns < 65536 then
            match getField fields "endpoint" with
            | none => some (Request.Connect host port.toNat ns.toNat none)
            | some Json.null => some (Request.Connect host port.toNat ns.toNat none)
            | some (Json.str e) => some (Request.Connect host port.toNat ns.toNat (some e))
            | some _ => none
          else none
        | _, _, _ => none
      else if tag = "read" then
        match getField fields "node_ids" with
        | some (Json.arr vs) => (strList vs).map (fun ids => Request.Read ids)
        | _ => none
      else none
    | _ => none
  | _ => none

/-- Embeds `fn parse_request` (src/main.rs 137-147): UTF-8 validation, then
JSON parsing and schema matching, with the source's two error messages. -/
def parse_request (raw_request : List Nat) : Except String Request :=
  match utf8Decode raw_request with
  | some chars =>
    match jsonFromChars chars with
    | some j =>
      match requestFromJson j with
      | some request => Except.ok request
      | none => Except.error "request is not valid"
    | none => Except.error "request is not valid"
  | none => Except.error "request is not valid utf-8"

/-! ## Response encoding (src/main.rs 235-247)

`handle_response` and `handle_error` both run
`serde_json::to_string(&response).unwrap() + "\n"` and write the bytes.
Serialization of `Response` always succeeds; its JSON form is embedded
below. -/

/-- The serde serialization of a `Response` as a JSON value: internally
tagged with `"type"`, variant names in snake case, fields in declaration
order. -/
def responseToJson : Response → Json
  | Response.ConnectOk => Json.obj [("type", Json.str "connect_ok")]
  | Response.Error message => Json.obj [("type", Json.str "error"), ("message", Json.str message)]
  | Response.ReadOk values => Json.obj [("type", Json.str "read_ok"), ("values", Json.arr values)]

/-- The bytes a response produces on the wire: the JSON text plus the
delimiter, as `to_string(..) + "\n"` then `into_bytes()`. -/
def encodeResponse (r : Response) : List Nat :=
  utf8Str (renderJson (responseToJson r) ++ ['\n'])

/-! ## Connection state machine (src/main.rs 149-233)

`fn connect` unwraps the external client's result, so an external connect
failure is a panic of the connection thread; a panic outcome is embedded as
`none`. -/

/-- Embeds `fn connect` (src/main.rs 203-233): build the endpoint URL and
delegate to the external client with fixed security options; the source
unwraps the result, so failure is a panic (`none`). -/
def connect (gw : Gateway) (host : String) (port : Nat) (endpoint : Option String) :
    Option Session :=
  let ep := match endpoint with
    | some value => value
    | none => ""
  let url := "opc.tcp://" ++ host ++ ":" ++ toString port ++ ep
  match gw.connect_to_endpoint url with
  | Except.ok session => some session
  | Except.error _ => none

/-- Embeds `fn handle_request` (src/main.rs 149-201).  The outer `Option` is
panic propagation (a failed `connect` unwrap); the `Except` distinguishes the
`Ok(response)`/`Err(error)` halves of the source's return value. -/
def handle_request (gw : Gateway) (state : State) (req : Request) :
    Option (Except String Response × State) :=
  match req with
  | Request.Connect host port ns endpoint =>
    match state.session with
    | none =>
      match connect gw host port endpoint with
      | none => none
      | some session =>
        let command_sender := gw.run_async session
        some (Except.ok Response.ConnectOk,
          { command_sender := some command_sender
            server := some { host := host, port := port, «namespace» := ns, endpoint := endpoint }
            session := some session })
    | some _ => some (Except.error "Session already in progress", state)
  | Request.Read node_ids =>
    match state.session with
    | none => some (Except.error "Cannot read, no active session", state)
    | some session =>
      let ns := match state.server with
        | some server => server.«namespace»
        | none => 0
      let nodes := node_ids.map (fun v => NodeId.mk ns v)
      match gw.read session nodes with
      | Except.ok values => some (Except.ok (Response.ReadOk values), state)
      | Except.error err =>
        some (Except.error ("Unable to read from OPCUA server: " ++ err), state)

/-! ## Client loop (src/main.rs 78-135)

One iteration of the `Ok(size)` arm of the read loop, and its fold over a
sequence of raw reads.  Socket writes are abstracted as emitted byte frames
(the source logs write failures and they affect no visible state here);
`Ok(0)` and the `Err` arm end the loop and are not part of any claim's step. -/

/-- Embeds `data.iter().position(|&byte| byte == LINE_FEED)`. -/
def position (l : List Nat) : Option Nat :=
  match l with
  | [] => none
  | b :: rest => if b = LINE_FEED then some 0 else (position rest).map (fun i => i + 1)

/-- The handling of one assembled frame (src/main.rs 99-117): decode it, on
success dispatch it through `handle_request` and emit the encoded response
(`handle_response` for `Ok`, `handle_error` for `Err`); on decode failure
only log.  `rest` is the slice after the split that becomes the next
accumulation buffer in every outcome.  `none` is a panic of the thread. -/
def dispatchFrame (gw : Gateway) (st : State) (frame rest : List Nat) :
    Option (State × List Nat × List (List Nat)) :=
  match parse_request frame with
  | Except.ok request =>
    match handle_request gw st request with
    | none => none
    | some (Except.ok response, new_state) =>
      some (new_state, rest, [encodeResponse response])
    | some (Except.error error, new_state) =>
      some (new_state, rest, [encodeResponse (Response.Error error)])
  | Except.error _ => some (st, rest, [])

/-- Embeds one `Ok(size)` iteration of the loop in `fn handle_client`
(src/main.rs 92-121) over the freshly read chunk `data` and the current
accumulation buffer `raw_request`: scan `data` for the first delimiter; when
found, `split_at` leaves everything from the delimiter onward as the next
buffer and the bytes before it complete the frame; otherwise append the whole
chunk. -/
def processChunk (gw : Gateway) (st : State) (raw_request data : List Nat) :
    Option (State × List Nat × List (List Nat)) :=
  match position data with
  | some index =>
    let request_end := data.take index
    let rest := data.drop index
    dispatchFrame gw st (raw_request ++ request_end) rest
  | none => some (st, raw_request ++ data, [])

/-- Fold of the client loop over successive raw reads, collecting every
response frame written, in order. -/
def runChunks (gw : Gateway) (st : State) (buf : List Nat) :
    List (List Nat) → Option (State × List Nat × List (List Nat))
  | [] => some (st, buf, [])
  | data :: more =>
    match processChunk gw st buf data with
    | none => none
    | some (st2, buf2, out) =>
      match runChunks gw st2 buf2 more with
      | none => none
      | some (st3, buf3, outs) => some (st3, buf3, out ++ outs)

/-- The state a fresh connection starts with (src/main.rs 79-83). -/
def initState : State :=
  { server := none, session := none, command_sender := none }

/-- Fold of `handle_request` over a sequence of already-decoded requests,
collecting the response history. -/
def runReqs (gw : Gateway) (st : State) :
    List Request → Option (State × List (Except String Response))
  | [] => some (st, [])
  | r :: rs =>
    match handle_request gw st r with
    | none => none
    | some (resp, st2) =>
      match runReqs gw st2 rs with
      | none => none
      | some (st3, hist) => some (st3, resp :: hist)

/-! ## Concrete fixtures

Concrete gateways and inputs used to exercise the embedding at specific
points. -/

/-- A gateway whose external calls always succeed (reads return an empty
batch). -/
def gw0 : Gateway :=
  { connect_to_endpoint := fun _ => Except.ok { id := 7 }
    run_async := fun _ => 1
    read := fun _ _ => Except.ok [] }

/-- A gateway whose external calls always fail. -/
def gwFail : Gateway :=
  { connect_to_endpoint := fun _ => Except.error "connection refused"
    run_async := fun _ => 1
    read := fun _ _ => Except.error "BadNothingToDo" }

/-- A gateway whose read echoes one null value per requested node
(order- and length-preserving, as the external interface requires). -/
def gwEcho : Gateway :=
  { connect_to_endpoint := fun _ => Except.ok { id := 7 }
    run_async := fun _ => 1
    read := fun _ ids => Except.ok (ids.map (fun _ => Json.null)) }

/-- The JSON value of a one-node read request. -/
def readReqJson (ident : String) : Json :=
  Json.obj [("type", Json.str "read"), ("node_ids", Json.arr [Json.str ident])]

/-- The wire bytes of a one-node read request, without the delimiter. -/
def readReqBytes (ident : String) : List Nat := utf8Str (renderJson (readReqJson ident))

/-- One raw read carrying two complete delimited frames. -/
def chunkAB : List Nat := readReqBytes "A" ++ [LINE_FEED] ++ readReqBytes "B" ++ [LINE_FEED]

/-- A following raw read carrying one complete delimited frame. -/
def chunkC : List Nat := readReqBytes "C" ++ [LINE_FEED]

/-- The connection state right after the one successful `Connect` that `gw0`
grants from the initial state. -/
def stConnected : State :=
  { server := some { host := "h", port := 4840, «namespace» := 2, endpoint := none }
    session := some { id := 7 }
    command_sender := some 1 }

/-! ## State-machine lemmas -/

/-- One `handle_request` step creates a session exactly when it answers
`ConnectOk`: afterwards a session is present iff one was present before or
this response is `Ok(ConnectOk)`. -/
theorem session_step (gw : Gateway) (st : State) (r : Request)
    (resp : Except String Response) (st' : State)
    (h : handle_request gw st r = some (resp, st')) :
    (st'.session.isSome ↔ (st.session.isSome ∨ resp = Except.ok Response.ConnectOk)) := by
  rcases st with ⟨server, session, cs⟩
  cases r with
  | Connect host port ns ep =>
    cases session with
    | none =>
      cases hc : connect gw host port ep with
      | none =>
        simp only [handle_request, hc] at h
        exact absurd h (by simp)
      | some s =>
        simp only [handle_request, hc, Option.some.injEq, Prod.mk.injEq] at h
        obtain ⟨hresp, hst⟩ := h
        subst hresp; subst hst
        simp
    | some s =>
      simp only [handle_request, Option.some.injEq, Prod.mk.injEq] at h
      obtain ⟨hresp, hst⟩ := h
      subst hresp; subst hst
      simp
  | Read ids =>
    cases session with
    | none =>
      simp only [handle_request, Option.some.injEq, Prod.mk.injEq] at h
      obtain ⟨hresp, hst⟩ := h
      subst hresp; subst hst
      simp
    | some s =>
      simp only [handle_request] at h
      cases hr : gw.read s (ids.map (fun v => NodeId.mk
          (match server with | some sv => sv.«namespace» | none => 0) v)) with
      | ok values =>
        rw [hr] at h
        simp only [Option.some.injEq, Prod.mk.injEq] at h
        obtain ⟨hresp, hst⟩ := h
        subst hresp; subst hst
        simp
      | error err =>
        rw [hr] at h
        simp only [Option.some.injEq, Prod.mk.injEq] at h
        obtain ⟨hresp, hst⟩ := h
        subst hresp; subst hst
        simp

/-- Once a session is present, no request changes the state at all. -/
theorem connected_state_frozen (gw : Gateway) (st : State) (s : Session) (r : Request)
    (resp : Except String Response) (st' : State)
    (hs : st.session = some s)
    (h : handle_request gw st r = some (resp, st')) : st' = st := by
  rcases st with ⟨server, session, cs⟩
  simp only at hs
  subst hs
  cases r with
  | Connect host port ns ep =>
    simp only [handle_request, Option.some.injEq, Prod.mk.injEq] at h
    exact h.2.symm
  | Read ids =>
    simp only [handle_request] at h
    cases hr : gw.read s (ids.map (fun v => NodeId.mk
        (match server with | some sv => sv.«namespace» | none => 0) v)) with
    | ok values =>
      rw [hr] at h
      simp only [Option.some.injEq, Prod.mk.injEq] at h
      exact h.2.symm
    | error err =>
      rw [hr] at h
      simp only [Option.some.injEq, Prod.mk.injEq] at h
      exact h.2.symm

/-- Along any completed request trace, a session is present at the end iff it
was present at the start or some request in the trace was answered
`Ok(ConnectOk)`. -/
theorem runReqs_session (gw : Gateway) :
    ∀ (reqs : List Request) (st st' : State) (hist : List (Except String Response)),
      runReqs gw st reqs = some (st', hist) →
      (st'.session.isSome ↔ (st.session.isSome ∨ Except.ok Response.ConnectOk ∈ hist)) := by
  intro reqs
  induction reqs with
  | nil =>
    intro st st' hist h
    simp only [runReqs, Option.some.injEq, Prod.mk.injEq] at h
    obtain ⟨hst, hh⟩ := h
    subst hst; subst hh
    simp
  | cons r rs ih =>
    intro st st' hist h
    cases hr : handle_request gw st r with
    | none =>
      simp only [runReqs, hr] at h
      exact absurd h (by simp)
    | some p =>
      obtain ⟨resp, st2⟩ := p
      simp only [runReqs, hr] at h
      cases hrs : runReqs gw st2 rs with
      | none =>
        simp only [hrs] at h
        exact absurd h (by simp)
      | some q =>
        obtain ⟨st3, hist2⟩ := q
        simp only [hrs, Option.some.injEq, Prod.mk.injEq] at h
        obtain ⟨rfl, rfl⟩ := h
        have h1 := session_step gw st r resp st2 hr
        have h2 := ih st2 st3 hist2 hrs
        simp only [List.mem_cons]
        constructor
        · intro hsome
          rcases h2.mp hsome with hpre | hmem
          · rcases h1.mp hpre with hpre2 | hresp
            · exact Or.inl hpre2
            · exact Or.inr (Or.inl hresp.symm)
          · exact Or.inr (Or.inr hmem)
        · intro hcase
          rcases hcase with hpre | heq | hmem
          · exact h2.mpr (Or.inl (h1.mpr (Or.inl hpre)))
          · exact h2.mpr (Or.inl (h1.mpr (Or.inr heq.symm)))
          · exact h2.mpr (Or.inr hmem)

/-! ## Claim theorems -/

/-- C3: on every connection the session is present iff a `Connect` was
answered `ConnectOk` earlier on the trace; a second `Connect` while a session
is present is rejected with `Error{"Session already in progress"}` and no
state change (so a later `Read` still sees the server config, hence the
namespace, captured at the first successful `Connect`); and no request ever
takes a connected state back to a disconnected one, since once a session is
present the state is left completely unchanged by every request. -/
theorem C3_session_invariant :
    (∀ (gw : Gateway) (reqs : List Request) (st' : State)
        (hist : List (Except String Response)),
      runReqs gw initState reqs = some (st', hist) →
      (st'.session.isSome ↔ Except.ok Response.ConnectOk ∈ hist))
    ∧ (∀ (gw : Gateway) (st : State) (s : Session) (host : String) (port ns : Nat)
        (ep : Option String), st.session = some s →
      handle_request gw st (Request.Connect host port ns ep)
        = some (Except.error "Session already in progress", st))
    ∧ (∀ (gw : Gateway) (st : State) (s : Session) (r : Request)
        (resp : Except String Response) (st' : State), st.session = some s →
      handle_request gw st r = some (resp, st') → st' = st) := by
  refine ⟨?_, ?_, ?_⟩
  · intro gw reqs st' hist h
    have := runReqs_session gw reqs initState st' hist h
    simpa [initState] using this
  · intro gw st s host port ns ep hs
    rcases st with ⟨server, session, cs⟩
    simp only at hs
    subst hs
    rfl
  · intro gw st s r resp st' hs h
    exact connected_state_frozen gw st s r resp st' hs h

/-- Witness for C3 at concrete inputs: one successful `Connect` under `gw0`
yields a present session and a `ConnectOk` in the history; a second `Connect`
on the resulting state is rejected unchanged; a `Read` on it leaves the state
equal to itself. -/
theorem C3_session_invariant_witness :
    (stConnected.session.isSome ↔
        (Except.ok Response.ConnectOk : Except String Response)
          ∈ [Except.ok Response.ConnectOk])
    ∧ handle_request gw0 stConnected (Request.Connect "other" 1 9 none)
        = some (Except.error "Session already in progress", stConnected)
    ∧ stConnected = stConnected :=
  ⟨C3_session_invariant.1 gw0 [Request.Connect "h" 4840 2 none] stConnected
      [Except.ok Response.ConnectOk] rfl,
    C3_session_invariant.2.1 gw0 stConnected { id := 7 } "other" 1 9 none rfl,
    C3_session_invariant.2.2 gw0 stConnected { id := 7 } (Request.Read ["x"])
      (Except.ok (Response.ReadOk [])) stConnected rfl rfl⟩

/-- C4: a `Read` handled with no session present answers
`Error{"Cannot read, no active session"}` and returns the state unchanged;
the result does not depend on the gateway, so no external call is made. -/
theorem C4_read_without_session (gw : Gateway) (server : Option Server)
    (cs : Option Nat) (ids : List String) :
    handle_request gw { server := server, session := none, command_sender := cs }
        (Request.Read ids)
      = some (Except.error "Cannot read, no active session",
          { server := server, session := none, command_sender := cs }) := rfl

/-- C5: a `Read` in the connected state whose external read fails answers an
`Error` carrying the formatted message and returns the state unchanged, so
the session survives a failed read. -/
theorem C5_failed_read_keeps_session (gw : Gateway) (server : Option Server)
    (cs : Option Nat) (s : Session) (ids : List String) (err : String)
    (hr : gw.read s (ids.map (fun v => NodeId.mk
        (match server with | some sv => sv.«namespace» | none => 0) v))
      = Except.error err) :
    handle_request gw { server := server, session := some s, command_sender := cs }
        (Request.Read ids)
      = some (Except.error ("Unable to read from OPCUA server: " ++ err),
          { server := server, session := some s, command_sender := cs }) := by
  simp only [handle_request, hr]

/-- Witness for C5 at a concrete input under the always-failing gateway. -/
theorem C5_failed_read_keeps_session_witness :
    handle_request gwFail
        { server := some { host := "h", port := 4840, «namespace» := 2, endpoint := none }
          session := some { id := 7 }, command_sender := some 1 }
        (Request.Read ["Temperature"])
      = some (Except.error ("Unable to read from OPCUA server: " ++ "BadNothingToDo"),
          { server := some { host := "h", port := 4840, «namespace» := 2, endpoint := none }
            session := some { id := 7 }, command_sender := some 1 }) :=
  C5_failed_read_keeps_session gwFail
    (some { host := "h", port := 4840, «namespace» := 2, endpoint := none })
    (some 1) { id := 7 } ["Temperature"] "BadNothingToDo" rfl

/-- C9: a `Read` with an empty node list in the connected state issues the
one no-op batched call and answers `ReadOk{values: []}`, provided the
external read meets its interface contract (success on the empty batch,
length-preserving results). -/
theorem C9_empty_read (gw : Gateway) (server : Option Server) (cs : Option Nat)
    (s : Session)
    (hlen : ∀ ids vs, gw.read s ids = Except.ok vs → vs.length = ids.length)
    (hok : ∃ vs, gw.read s [] = Except.ok vs) :
    handle_request gw { server := server, session := some s, command_sender := cs }
        (Request.Read [])
      = some (Except.ok (Response.ReadOk []),
          { server := server, session := some s, command_sender := cs }) := by
  obtain ⟨vs, hvs⟩ := hok
  have hnil : vs = [] := List.length_eq_zero.mp (by simpa using hlen [] vs hvs)
  subst hnil
  simp only [handle_request, List.map_nil, hvs]

/-- Witness for C9 under the echoing gateway. -/
theorem C9_empty_read_witness :
    handle_request gwEcho
        { server := some { host := "h", port := 4840, «namespace» := 2, endpoint := none }
          session := some { id := 7 }, command_sender := some 1 }
        (Request.Read [])
      = some (Except.ok (Response.ReadOk []),
          { server := some { host := "h", port := 4840, «namespace» := 2, endpoint := none }
            session := some { id := 7 }, command_sender := some 1 }) :=
  C9_empty_read gwEcho
    (some { host := "h", port := 4840, «namespace» := 2, endpoint := none })
    (some 1) { id := 7 }
    (fun ids vs h => by
      simp only [gwEcho, Except.ok.injEq] at h
      subst h
      simp)
    ⟨[], rfl⟩

/-- C10: for every `Read` in every state, whether the external read succeeds
or fails, `handle_request` completes and returns the input state itself
(every field unchanged); only `Connect` requests ever build a new state. -/
theorem C10_read_preserves_state (gw : Gateway) (st : State) (ids : List String) :
    (handle_request gw st (Request.Read ids)).map (fun p => p.2) = some st := by
  rcases st with ⟨server, session, cs⟩
  cases session with
  | none => rfl
  | some s =>
    simp only [handle_request]
    cases gw.read s (ids.map (fun v => NodeId.mk
        (match server with | some sv => sv.«namespace» | none => 0) v)) <;> rfl

/-- C1 (the code, at the claim's failing input): when the external
`connect_to_endpoint` fails on the URL built from the request, the source
`unwrap`s the failure, so the handler panics — `handle_request` has no
result at all, hence no `Error` response and no surviving connection. -/
theorem C1_connect_failure_is_panic (gw : Gateway) (server : Option Server)
    (cs : Option Nat) (host : String) (port ns : Nat) (ep : Option String)
    (msg : String)
    (hc : gw.connect_to_endpoint ("opc.tcp://" ++ host ++ ":" ++ toString port
        ++ (match ep with | some v => v | none => "")) = Except.error msg) :
    handle_request gw { server := server, session := none, command_sender := cs }
        (Request.Connect host port ns ep) = none := by
  simp only [handle_request, connect, hc]

/-- Witness for C1 under the always-failing gateway, from the initial state. -/
theorem C1_connect_failure_is_panic_witness :
    handle_request gwFail initState (Request.Connect "unreachable" 4840 2 none) = none :=
  C1_connect_failure_is_panic gwFail none none "unreachable" 4840 2 none
    "connection refused" rfl

/-- C7: a frame that fails to decode produces no response frame, no state
change, and the loop continues with the bytes after the delimiter (the
failure is only logged). -/
theorem C7_decode_failure_drops_frame (gw : Gateway) (st : State)
    (buf data : List Nat) (i : Nat) (e : String)
    (hidx : position data = some i)
    (hp : parse_request (buf ++ data.take i) = Except.error e) :
    processChunk gw st buf data = some (st, data.drop i, []) := by
  simp only [processChunk, hidx, dispatchFrame, hp]

/-- Witness for C7: a frame with the unknown type discriminant
`"subscribe"` is dropped without a response and without a state change. -/
theorem C7_decode_failure_drops_frame_witness :
    processChunk gw0 initState []
        (utf8Str (renderJson (Json.obj [("type", Json.str "subscribe")])) ++ [LINE_FEED])
      = some (initState, [LINE_FEED], []) :=
  C7_decode_failure_drops_frame gw0 initState []
    (utf8Str (renderJson (Json.obj [("type", Json.str "subscribe")])) ++ [LINE_FEED])
    (utf8Str (renderJson (Json.obj [("type", Json.str "subscribe")]))).length
    "request is not valid" rfl (by rfl)

/-- A found delimiter position really is a delimiter: the suffix from the
found index starts with the delimiter byte itself. -/
theorem position_some_drop (l : List Nat) (i : Nat) (h : position l = some i) :
    ∃ tail, l.drop i = LINE_FEED :: tail := by
  induction l generalizing i with
  | nil => simp [position] at h
  | cons b rest ih =>
    by_cases hb : b = LINE_FEED
    · subst hb
      have h0 : i = 0 := by
        simp [position] at h
        omega
      subst h0
      exact ⟨rest, rfl⟩
    · simp only [position, if_neg hb] at h
      cases hr : position rest with
      | none => rw [hr] at h; exact absurd h (by simp)
      | some j =>
        rw [hr] at h
        simp only [Option.map_some', Option.some.injEq] at h
        subst h
        obtain ⟨tail, ht⟩ := ih j hr
        exact ⟨tail, by simpa using ht⟩

/-- C6 (corrected): with no delimiter in the chunk the whole chunk is
appended to the accumulation buffer; with a delimiter at position `i`, the
frame handed to decoding is the buffer plus the chunk bytes before the
delimiter (the delimiter itself is not part of the frame), but the next
accumulation buffer is the suffix from the delimiter onward — it begins with
the delimiter byte, not with the byte after it. -/
theorem C6_framer_step (gw : Gateway) (st : State) (buf data : List Nat) :
    (position data = none → processChunk gw st buf data = some (st, buf ++ data, []))
    ∧ (∀ i, position data = some i →
        processChunk gw st buf data
          = dispatchFrame gw st (buf ++ data.take i) (data.drop i)
        ∧ ∃ tail, data.drop i = LINE_FEED :: tail) := by
  constructor
  · intro h
    simp only [processChunk, h]
  · intro i h
    exact ⟨by simp only [processChunk, h], position_some_drop data i h⟩

/-- Witness for C6 at concrete chunks: no delimiter appends; a delimiter at
index 1 of `[65, 10, 66]` splits the frame `[65]` out and keeps `[10, 66]`
as the next buffer. -/
theorem C6_framer_step_witness :
    processChunk gw0 initState [] [65, 66] = some (initState, [] ++ [65, 66], [])
    ∧ (processChunk gw0 initState [] [65, 10, 66]
          = dispatchFrame gw0 initState ([] ++ [65]) [10, 66]
        ∧ ∃ tail, ([65, 10, 66] : List Nat).drop 1 = LINE_FEED :: tail) :=
  ⟨(C6_framer_step gw0 initState [] [65, 66]).1 rfl,
    by
      have h := (C6_framer_step gw0 initState [] [65, 10, 66]).2 1 rfl
      exact ⟨h.1, h.2⟩⟩

/-- C6 counterexample: the claim says everything after the delimiter becomes
the new accumulation buffer; on the chunk `[65, 10, 66]` the code keeps
`[10, 66]` — the delimiter stays at the head of the buffer — not `[66]`. -/
theorem C6_counterexample :
    processChunk gw0 initState [] [65, 10, 66] = some (initState, [10, 66], [])
    ∧ [10, 66] ≠ ([66] : List Nat) :=
  ⟨rfl, by decide⟩

/-- C2 (corrected): buffered bytes are never re-scanned for delimiters.  Two
complete read requests `A` and `B` arriving in one raw read are followed by a
read carrying request `C`: only `A` is answered; the carried bytes
(delimiter, frame `B`, delimiter) merge with frame `C` into one garbled
frame whose decode fails, so `B` and `C` are silently dropped, and the final
buffer `[0x0A]` no longer holds them.  This holds for every gateway because
the connection stays disconnected throughout. -/
theorem C2_carried_frames_lost (gw : Gateway) :
    runChunks gw initState [] [chunkAB, chunkC]
      = some (initState, [LINE_FEED],
          [encodeResponse (Response.Error "Cannot read, no active session")]) := rfl

/-- C2 counterexample: under `gw0`, of the three complete frames delivered
(two in the first read), exactly one response is ever produced — the frames
carried past the first delimiter are not each decoded and answered. -/
theorem C2_counterexample :
    runChunks gw0 initState [] [chunkAB, chunkC]
      = some (initState, [LINE_FEED],
          [encodeResponse (Response.Error "Cannot read, no active session")])
    ∧ chunkAB.count LINE_FEED = 2
    ∧ [encodeResponse (Response.Error "Cannot read, no active session")].length = 1 :=
  ⟨rfl, by decide, rfl⟩

/-! ## Round trip of the response codec

The lemmas below establish that parsing inverts rendering, leading to claim
C8: the wire bytes of every response are its JSON text plus exactly one
delimiter, and decoding them recovers the same JSON value. -/

mutual

/-- Parser fuel sufficient for a value (one unit per `parseV` entry and one
per `parseVTok` entry that opens a bracket). -/
def jfuel : Json → Nat
  | .null => 1
  | .bool _ => 1
  | .num _ => 1
  | .str _ => 1
  | .arr xs => 2 + efuel xs
  | .obj fs => 2 + mfuel fs

/-- Parser fuel sufficient for an element list. -/
def efuel : List Json → Nat
  | [] => 0
  | x :: xs => 1 + jfuel x + efuel xs

/-- Parser fuel sufficient for a member list. -/
def mfuel : List (String × Json) → Nat
  | [] => 0
  | (_, v) :: fs => 1 + jfuel v + mfuel fs

end

/-- The head of the input (if any) is not a decimal digit, so a maximal digit
run stops in front of it. -/
def headNotDigit : List Char → Prop
  | [] => True
  | c :: _ => c.isDigit = false

/-- Continuations that may safely follow a rendered value: after a number the
next character must not be a digit; every other value is self-delimiting. -/
def numGuard : Json → List Char → Prop
  | .num _, rest => headNotDigit rest
  | _, _ => True

/-- Facts about decimal digit characters, bundled for reuse. -/
theorem digitChar_facts : ∀ d, d < 10 →
    (Nat.digitChar d).isDigit = true ∧ (Nat.digitChar d).toNat - 48 = d
    ∧ isWsChar (Nat.digitChar d) = false
    ∧ Nat.digitChar d ≠ ']' ∧ Nat.digitChar d ≠ '}'
    ∧ Nat.digitChar d ≠ 'n' ∧ Nat.digitChar d ≠ 't' ∧ Nat.digitChar d ≠ 'f'
    ∧ Nat.digitChar d ≠ '"' ∧ Nat.digitChar d ≠ '-'
    ∧ Nat.digitChar d ≠ '[' ∧ Nat.digitChar d ≠ '{' := by decide

/-- Hexadecimal digit characters are inverted by `hexVal`. -/
theorem hexVal_digitChar : ∀ h, h < 16 → hexVal (Nat.digitChar h) = some h := by decide

/-- A maximal digit run stops at a non-digit head. -/
theorem parseDigitsAux_stop (acc : Nat) (rest : List Char) (h : headNotDigit rest) :
    parseDigitsAux acc rest = (acc, rest) := by
  cases rest with
  | nil => rfl
  | cons c cs =>
    have h' : c.isDigit = false := h
    simp [parseDigitsAux, h']

/-- Folding the rendered digits of `n` onto `acc` multiplies `acc` by the
digit count's power of ten and adds `n`. -/
theorem parseDigitsAux_natCharsAux : ∀ fuel n acc rest, n < fuel →
    parseDigitsAux acc (natCharsAux fuel n ++ rest)
      = parseDigitsAux (acc * 10 ^ (natCharsAux fuel n).length + n) rest := by
  intro fuel
  induction fuel with
  | zero => intro n acc rest h; omega
  | succ f ih =>
    intro n acc rest h
    by_cases hn : n < 10
    · have hfacts := digitChar_facts n hn
      simp only [natCharsAux, if_pos hn, List.cons_append, List.nil_append,
        parseDigitsAux, hfacts.1, if_true, List.length_cons, List.length_nil]
      rw [hfacts.2.1]
      congr 1
      ring
    · have hdiv : n / 10 < f := by
        have h1 : n / 10 < n := Nat.div_lt_self (by omega) (by omega)
        omega
      simp only [natCharsAux, if_neg hn, List.append_assoc, List.cons_append,
        List.nil_append]
      rw [ih (n / 10) acc (Nat.digitChar (n % 10) :: rest) hdiv]
      have hm := digitChar_facts (n % 10) (Nat.mod_lt n (by omega))
      simp only [parseDigitsAux, hm.1, if_true]
      rw [hm.2.1]
      simp only [List.length_append, List.length_cons, List.length_nil]
      congr 1
      have hdm : 10 * (n / 10) + n % 10 = n := Nat.div_add_mod n 10
      have hpow : acc * 10 ^ ((natCharsAux f (n / 10)).length + (0 + 1))
          = acc * 10 ^ (natCharsAux f (n / 10)).length * 10 := by ring
      omega

/-- The rendering of `n` starts with a digit character. -/
theorem natCharsAux_head : ∀ fuel n, n < fuel →
    ∃ d t, natCharsAux fuel n = Nat.digitChar d :: t ∧ d < 10 := by
  intro fuel
  induction fuel with
  | zero => intro n h; omega
  | succ f ih =>
    intro n h
    by_cases hn : n < 10
    · exact ⟨n, [], by simp [natCharsAux, if_pos hn], hn⟩
    · have hdiv : n / 10 < f := by
        have h1 : n / 10 < n := Nat.div_lt_self (by omega) (by omega)
        omega
      obtain ⟨d, t, ht, hd⟩ := ih (n / 10) hdiv
      exact ⟨d, t ++ [Nat.digitChar (n % 10)],
        by simp [natCharsAux, if_neg hn, ht], hd⟩

/-- A rendered natural number followed by a non-digit parses back to itself. -/
theorem parseNat_natChars (n : Nat) (rest : List Char) (h : headNotDigit rest) :
    parseNat (natChars n ++ rest) = some (n, rest) := by
  obtain ⟨d, t, ht, hd⟩ := natCharsAux_head (n + 1) n (by omega)
  have hfacts := digitChar_facts d hd
  rw [natChars, ht]
  simp only [List.cons_append, parseNat, hfacts.1, if_true]
  have := parseDigitsAux_natCharsAux (n + 1) n 0 rest (by omega)
  rw [ht] at this
  simp only [List.cons_append] at this
  rw [this, parseDigitsAux_stop _ rest h]
  simp

/-- `parseStringBody` at a closing quote. -/
theorem psb_step_quote (cs : List Char) : parseStringBody ('"' :: cs) = some ([], cs) :=
  parseStringBody.eq_2 cs

/-- `parseStringBody` at a single-character escape. -/
theorem psb_step_esc (e ec : Char) (cs : List Char) (he : escCharOf e = some ec)
    (hu : e ≠ 'u') :
    parseStringBody ('\\' :: e :: cs)
      = (parseStringBody cs).map (fun p => (ec :: p.1, p.2)) := by
  rw [parseStringBody.eq_4 e cs (fun h1 h2 h3 h4 cs3 heq _ => hu heq), he]

/-- `parseStringBody` at an ordinary (unescaped) character. -/
theorem psb_step_other (c : Char) (cs : List Char) (h1 : c ≠ '"') (h2 : c ≠ '\\')
    (h3 : ¬ c.toNat < 32) :
    parseStringBody (c :: cs) = (parseStringBody cs).map (fun p => (c :: p.1, p.2)) := by
  rw [parseStringBody.eq_6 c cs (fun h => h1 h)
    (fun _ _ _ _ _ hc _ => h2 hc) (fun _ _ hc _ => h2 hc) (fun hc _ => h2 hc),
    if_neg h3]

set_option maxRecDepth 2000 in
/-- `parseStringBody` at a low hexadecimal escape. -/
theorem psb_step_u (a b : Char) (va vb : Nat) (cs : List Char)
    (ha : hexVal a = some va) (hb : hexVal b = some vb) (hva : va < 16) (hvb : vb < 16) :
    parseStringBody ('\\' :: 'u' :: '0' :: '0' :: a :: b :: cs)
      = (parseStringBody cs).map (fun p => (Char.ofNat (va * 16 + vb) :: p.1, p.2)) := by
  have h0 : hexVal '0' = some 0 := by decide
  have hh : hex4 '0' '0' a b = some (va * 16 + vb) := by
    unfold hex4
    rw [h0, ha, hb]
    simp only [Option.some.injEq]
    omega
  rw [parseStringBody.eq_3, hh]
  show (if va * 16 + vb < 55296 ∨ 57343 < va * 16 + vb then
      (parseStringBody cs).map (fun p => (Char.ofNat (va * 16 + vb) :: p.1, p.2))
    else none)
    = (parseStringBody cs).map (fun p => (Char.ofNat (va * 16 + vb) :: p.1, p.2))
  rw [if_pos (Or.inl (by omega : va * 16 + vb < 55296))]

/-- Escaping a character and parsing it back inside a string body yields the
character again, for any continuation that itself parses. -/
theorem parseStringBody_escapeChar (c : Char) (tail : List Char)
    (p : List Char × List Char) (htail : parseStringBody tail = some p) :
    parseStringBody (escapeChar c ++ tail) = some (c :: p.1, p.2) := by
  by_cases h1 : c = '"'
  · subst h1
    have he : escapeChar '"' = ['\\', '"'] := rfl
    rw [he, List.cons_append, List.cons_append, List.nil_append,
      psb_step_esc '"' '"' _ (by decide) (by decide), htail]
    rfl
  · by_cases h2 : c = '\\'
    · subst h2
      have he : escapeChar '\\' = ['\\', '\\'] := by
        rw [escapeChar, if_neg (by decide), if_pos rfl]
      rw [he, List.cons_append, List.cons_append, List.nil_append,
        psb_step_esc '\\' '\\' _ (by decide) (by decide), htail]
      rfl
    · by_cases h3 : c.toNat = 8
      · have hc : Char.ofNat 8 = c := by rw [← h3, Char.ofNat_toNat]
        have he : escapeChar c = ['\\', 'b'] := by
          rw [escapeChar, if_neg h1, if_neg h2, if_pos h3]
        rw [he, List.cons_append, List.cons_append, List.nil_append,
          psb_step_esc 'b' (Char.ofNat 8) _ (by decide) (by decide), htail, hc]
        rfl
      · by_cases h4 : c.toNat = 9
        · have hc : Char.ofNat 9 = c := by rw [← h4, Char.ofNat_toNat]
          have he : escapeChar c = ['\\', 't'] := by
            rw [escapeChar, if_neg h1, if_neg h2, if_neg h3, if_pos h4]
          rw [he, List.cons_append, List.cons_append, List.nil_append,
            psb_step_esc 't' (Char.ofNat 9) _ (by decide) (by decide), htail, hc]
          rfl
        · by_cases h5 : c.toNat = 10
          · have hc : Char.ofNat 10 = c := by rw [← h5, Char.ofNat_toNat]
            have he : escapeChar c = ['\\', 'n'] := by
              rw [escapeChar, if_neg h1, if_neg h2, if_neg h3, if_neg h4, if_pos h5]
            rw [he, List.cons_append, List.cons_append, List.nil_append,
              psb_step_esc 'n' (Char.ofNat 10) _ (by decide) (by decide), htail, hc]
            rfl
          · by_cases h6 : c.toNat = 12
            · have hc : Char.ofNat 12 = c := by rw [← h6, Char.ofNat_toNat]
              have he : escapeChar c = ['\\', 'f'] := by
                rw [escapeChar, if_neg h1, if_neg h2, if_neg h3, if_neg h4, if_neg h5,
                  if_pos h6]
              rw [he, List.cons_append, List.cons_append, List.nil_append,
                psb_step_esc 'f' (Char.ofNat 12) _ (by decide) (by decide), htail, hc]
              rfl
            · by_cases h7 : c.toNat = 13
              · have hc : Char.ofNat 13 = c := by rw [← h7, Char.ofNat_toNat]
                have he : escapeChar c = ['\\', 'r'] := by
                  rw [escapeChar, if_neg h1, if_neg h2, if_neg h3, if_neg h4, if_neg h5,
                    if_neg h6, if_pos h7]
                rw [he, List.cons_append, List.cons_append, List.nil_append,
                  psb_step_esc 'r' (Char.ofNat 13) _ (by decide) (by decide), htail, hc]
                rfl
              · by_cases h8 : c.toNat < 32
                · have he : escapeChar c = ['\\', 'u', '0', '0',
                      Nat.digitChar (c.toNat / 16), Nat.digitChar (c.toNat % 16)] := by
                    rw [escapeChar, if_neg h1, if_neg h2, if_neg h3, if_neg h4, if_neg h5,
                      if_neg h6, if_neg h7, if_pos h8]
                  have hu := psb_step_u (Nat.digitChar (c.toNat / 16))
                    (Nat.digitChar (c.toNat % 16)) (c.toNat / 16) (c.toNat % 16) tail
                    (hexVal_digitChar _ (by omega)) (hexVal_digitChar _ (by omega))
                    (by omega) (by omega)
                  have hval : c.toNat / 16 * 16 + c.toNat % 16 = c.toNat := by
                    have := Nat.div_add_mod c.toNat 16
                    omega
                  have hc : Char.ofNat (c.toNat / 16 * 16 + c.toNat % 16) = c := by
                    rw [hval, Char.ofNat_toNat]
                  rw [he]
                  simp only [List.cons_append, List.nil_append]
                  rw [hu, htail, hc]
                  rfl
                · have he : escapeChar c = [c] := by
                    rw [escapeChar, if_neg h1, if_neg h2, if_neg h3, if_neg h4, if_neg h5,
                      if_neg h6, if_neg h7, if_neg h8]
                  rw [he, List.cons_append, List.nil_append,
                    psb_step_other c tail h1 h2 h8, htail]
                  rfl

/-- A rendered (escaped) string body followed by the closing quote parses
back to the original characters. -/
theorem parseStringBody_escape : ∀ (s rest : List Char),
    parseStringBody (escapeStr s ++ '"' :: rest) = some (s, rest) := by
  intro s
  induction s with
  | nil =>
    intro rest
    have h0 : escapeStr [] = [] := rfl
    rw [h0, List.nil_append, psb_step_quote]
  | cons c cs ih =>
    intro rest
    have hesc : escapeStr (c :: cs) = escapeChar c ++ escapeStr cs := by
      simp [escapeStr]
    rw [hesc, List.append_assoc]
    exact parseStringBody_escapeChar c (escapeStr cs ++ '"' :: rest) (cs, rest) (ih rest)

/-- `skipWs` keeps a list headed by a non-whitespace character. -/
theorem skipWs_cons_not_ws (c : Char) (cs : List Char) (h : isWsChar c = false) :
    skipWs (c :: cs) = c :: cs := by
  simp [skipWs, h]

/-- Every rendered value starts with a non-whitespace character that is
neither a closing bracket nor a closing brace. -/
theorem render_head (j : Json) : ∃ c t, renderJson j = c :: t
    ∧ isWsChar c = false ∧ c ≠ ']' ∧ c ≠ '}' := by
  cases j with
  | num i =>
    by_cases hi : i < 0
    · refine ⟨'-', natChars i.natAbs, ?_, by decide⟩
      simp [renderJson, renderNum, if_pos hi]
    · obtain ⟨d, t, ht, hd⟩ := natCharsAux_head (i.toNat + 1) i.toNat (by omega)
      have hf := digitChar_facts d hd
      refine ⟨Nat.digitChar d, t, ?_, hf.2.2.1, hf.2.2.2.1, hf.2.2.2.2.1⟩
      simp [renderJson, renderNum, if_neg hi, natChars, ht]
  | bool b =>
    cases b with
    | false => exact ⟨'f', _, rfl, by decide⟩
    | true => exact ⟨'t', _, rfl, by decide⟩
  | null => exact ⟨'n', _, rfl, by decide⟩
  | str s => exact ⟨'"', _, rfl, by decide⟩
  | arr xs => exact ⟨'[', _, rfl, by decide⟩
  | obj fs => exact ⟨'{', _, rfl, by decide⟩

/-- A continuation headed by a non-digit is safe after any rendered value. -/
theorem numGuard_of_head (j : Json) (c : Char) (rest : List Char)
    (h : c.isDigit = false) : numGuard j (c :: rest) := by
  cases j <;> first
    | exact trivial
    | exact h

/-- The empty continuation is safe after any rendered value. -/
theorem numGuard_nil (j : Json) : numGuard j [] := by
  cases j <;> trivial

/-- Unfolding `parseElems` once a parsed first element is known. -/
theorem parseElems_step (fuel : Nat) (cs : List Char) (j : Json) (rest : List Char)
    (hV : parseV fuel cs = some (j, rest)) :
    parseElems (fuel + 1) cs
      = (match skipWs rest with
         | [] => none
         | c :: rest2 =>
           if c = ',' then (parseElems fuel rest2).map (fun p => (j :: p.1, p.2))
           else if c = ']' then some ([j], rest2)
           else none) := by
  simp only [parseElems]
  rw [hV]

/-- A rendered nonempty element list followed by the closing bracket parses
back to the elements, given the round trip for each element. -/
theorem parseElems_render (xs : List Json)
    (ih : ∀ x ∈ xs, ∀ fuel rest, jfuel x ≤ fuel → numGuard x rest →
        parseV fuel (renderJson x ++ rest) = some (x, rest)) :
    ∀ fuel rest, xs ≠ [] → efuel xs ≤ fuel →
      parseElems fuel (renderElems xs ++ ']' :: rest) = some (xs, rest) := by
  induction xs with
  | nil => intro fuel rest hne _; exact absurd rfl hne
  | cons x tail ihl =>
    intro fuel rest _ hfuel
    have hfe : efuel (x :: tail) = 1 + jfuel x + efuel tail := rfl
    obtain ⟨f, rfl⟩ : ∃ f, fuel = f + 1 := by
      cases fuel with
      | zero => omega
      | succ f => exact ⟨f, rfl⟩
    have hjf : jfuel x ≤ f := by omega
    cases tail with
    | nil =>
      have hre : renderElems [x] = renderJson x := rfl
      rw [hre]
      have hV : parseV f (renderJson x ++ ']' :: rest) = some (x, ']' :: rest) :=
        ih x (by simp) f (']' :: rest) hjf (numGuard_of_head x ']' rest (by decide))
      rw [parseElems_step f _ x (']' :: rest) hV,
        skipWs_cons_not_ws ']' rest (by decide)]
      show (if (']' : Char) = ',' then (parseElems f rest).map (fun p => (x :: p.1, p.2))
          else if (']' : Char) = ']' then some ([x], rest) else none) = some ([x], rest)
      rw [if_neg (by decide), if_pos rfl]
    | cons y t2 =>
      have hre : renderElems (x :: y :: t2) = renderJson x ++ ',' :: renderElems (y :: t2) :=
        rfl
      rw [hre, List.append_assoc, List.cons_append]
      have hV : parseV f (renderJson x ++ ',' :: (renderElems (y :: t2) ++ ']' :: rest))
          = some (x, ',' :: (renderElems (y :: t2) ++ ']' :: rest)) :=
        ih x (by simp) f _ hjf (numGuard_of_head x ',' _ (by decide))
      rw [parseElems_step f _ x _ hV,
        skipWs_cons_not_ws ',' _ (by decide)]
      show (if (',' : Char) = ','
          then (parseElems f (renderElems (y :: t2) ++ ']' :: rest)).map
            (fun p => (x :: p.1, p.2))
          else if (',' : Char) = ']'
          then some ([x], renderElems (y :: t2) ++ ']' :: rest) else none)
        = some (x :: y :: t2, rest)
      rw [if_pos rfl,
        ihl (fun z hz => ih z (by simp [hz])) f rest (by simp) (by omega)]
      rfl

/-- Rebuilding a string from its character data is the identity. -/
theorem string_mk_data (s : String) : String.mk s.data = s := rfl

/-- Unfolding `parseMembers` once the parsed key is known. -/
theorem parseMembers_step (fuel : Nat) (cs2 : List Char) (k : List Char)
    (rest : List Char) (hS : parseStringBody cs2 = some (k, rest)) :
    parseMembers (fuel + 1) ('"' :: cs2)
      = (match skipWs rest with
         | [] => none
         | d :: rest2 =>
           if d = ':' then
             match parseV fuel rest2 with
             | none => none
             | some (v, rest3) =>
               match skipWs rest3 with
               | [] => none
               | e :: rest4 =>
                 if e = ',' then
                   (parseMembers fuel (skipWs rest4)).map
                     (fun p => ((String.mk k, v) :: p.1, p.2))
                 else if e = '}' then some ([(String.mk k, v)], rest4)
                 else none
           else none) := by
  simp only [parseMembers]
  rw [hS]

/-- A rendered nonempty member list followed by the closing brace parses back
to the members, given the round trip for each member value. -/
theorem parseMembers_render (fs : List (String × Json))
    (ih : ∀ kv ∈ fs, ∀ fuel rest, jfuel kv.2 ≤ fuel → numGuard kv.2 rest →
        parseV fuel (renderJson kv.2 ++ rest) = some (kv.2, rest)) :
    ∀ fuel rest, fs ≠ [] → mfuel fs ≤ fuel →
      parseMembers fuel (renderMembers fs ++ '}' :: rest) = some (fs, rest) := by
  induction fs with
  | nil => intro fuel rest hne _; exact absurd rfl hne
  | cons kv tail ihl =>
    obtain ⟨k, v⟩ := kv
    intro fuel rest _ hfuel
    have hfm : mfuel ((k, v) :: tail) = 1 + jfuel v + mfuel tail := rfl
    obtain ⟨f, rfl⟩ : ∃ f, fuel = f + 1 := by
      cases fuel with
      | zero => omega
      | succ f => exact ⟨f, rfl⟩
    have hjf : jfuel v ≤ f := by omega
    cases tail with
    | nil =>
      have hre : renderMembers [(k, v)] ++ '}' :: rest
          = '"' :: (escapeStr k.data ++ '"' :: (':' :: (renderJson v ++ '}' :: rest))) := by
        show ('"' :: (escapeStr k.data ++ '"' :: ':' :: renderJson v)) ++ '}' :: rest = _
        simp [List.append_assoc]
      rw [hre]
      have hS := parseStringBody_escape k.data (':' :: (renderJson v ++ '}' :: rest))
      rw [parseMembers_step f _ k.data _ hS,
        skipWs_cons_not_ws ':' _ (by decide)]
      show (if (':' : Char) = ':' then
          match parseV f (renderJson v ++ '}' :: rest) with
          | none => none
          | some (v2, rest3) =>
            match skipWs rest3 with
            | [] => none
            | e :: rest4 =>
              if e = ',' then
                (parseMembers f (skipWs rest4)).map
                  (fun p => ((String.mk k.data, v2) :: p.1, p.2))
              else if e = '}' then some ([(String.mk k.data, v2)], rest4)
              else none
        else none) = some ([(k, v)], rest)
      rw [if_pos rfl,
        ih (k, v) (by simp) f ('}' :: rest) hjf (numGuard_of_head v '}' _ (by decide))]
      show (match skipWs ('}' :: rest) with
          | [] => none
          | e :: rest4 =>
            if e = ',' then
              (parseMembers f (skipWs rest4)).map
                (fun p => ((String.mk k.data, v) :: p.1, p.2))
            else if e = '}' then some ([(String.mk k.data, v)], rest4)
            else none) = some ([(k, v)], rest)
      rw [skipWs_cons_not_ws '}' _ (by decide)]
      show (if ('}' : Char) = ',' then
          (parseMembers f (skipWs rest)).map
            (fun p => ((String.mk k.data, v) :: p.1, p.2))
        else if ('}' : Char) = '}' then some ([(String.mk k.data, v)], rest)
        else none) = some ([(k, v)], rest)
      rw [if_neg (by decide), if_pos rfl, string_mk_data]
    | cons kv2 t2 =>
      have hre : renderMembers ((k, v) :: kv2 :: t2) ++ '}' :: rest
          = '"' :: (escapeStr k.data ++ '"' ::
              (':' :: (renderJson v ++ ',' :: (renderMembers (kv2 :: t2) ++ '}' :: rest)))) := by
        show (('"' :: (escapeStr k.data ++ '"' :: ':' :: renderJson v))
            ++ ',' :: renderMembers (kv2 :: t2)) ++ '}' :: rest = _
        simp [List.append_assoc]
      rw [hre]
      have hS := parseStringBody_escape k.data
        (':' :: (renderJson v ++ ',' :: (renderMembers (kv2 :: t2) ++ '}' :: rest)))
      rw [parseMembers_step f _ k.data _ hS,
        skipWs_cons_not_ws ':' _ (by decide)]
      show (if (':' : Char) = ':' then
          match parseV f (renderJson v ++ ',' :: (renderMembers (kv2 :: t2) ++ '}' :: rest)) with
          | none => none
          | some (v2, rest3) =>
            match skipWs rest3 with
            | [] => none
            | e :: rest4 =>
              if e = ',' then
                (parseMembers f (skipWs rest4)).map
                  (fun p => ((String.mk k.data, v2) :: p.1, p.2))
              else if e = '}' then some ([(String.mk k.data, v2)], rest4)
              else none
        else none) = some ((k, v) :: kv2 :: t2, rest)
      rw [if_pos rfl,
        ih (k, v) (by simp) f (',' :: (renderMembers (kv2 :: t2) ++ '}' :: rest)) hjf
          (numGuard_of_head v ',' _ (by decide))]
      show (match skipWs (',' :: (renderMembers (kv2 :: t2) ++ '}' :: rest)) with
          | [] => none
          | e :: rest4 =>
            if e = ',' then
              (parseMembers f (skipWs rest4)).map
                (fun p => ((String.mk k.data, v) :: p.1, p.2))
            else if e = '}' then some ([(String.mk k.data, v)], rest4)
            else none) = some ((k, v) :: kv2 :: t2, rest)
      rw [skipWs_cons_not_ws ',' _ (by decide)]
      show (if (',' : Char) = ',' then
          (parseMembers f (skipWs (renderMembers (kv2 :: t2) ++ '}' :: rest))).map
            (fun p => ((String.mk k.data, v) :: p.1, p.2))
        else if (',' : Char) = '}'
        then some ([(String.mk k.data, v)], renderMembers (kv2 :: t2) ++ '}' :: rest)
        else none) = some ((k, v) :: kv2 :: t2, rest)
      rw [if_pos rfl]
      obtain ⟨c0, t0, hhead, hws, hbr1, hbr2⟩ := render_head kv2.2
      have hmh : renderMembers (kv2 :: t2) ++ '}' :: rest
          = '"' :: ((renderMembers (kv2 :: t2)).tail ++ '}' :: rest) := by
        obtain ⟨k2, v2⟩ := kv2
        cases t2 with
        | nil => rfl
        | cons kv3 t3 => rfl
      rw [hmh, skipWs_cons_not_ws '"' _ (by decide), ← hmh,
        ihl (fun z hz => ih z (by simp [hz])) f rest (by simp) (by omega)]
      rw [string_mk_data]
      rfl

/-- Every value needs at least one unit of fuel. -/
theorem jfuel_pos (j : Json) : 1 ≤ jfuel j := by
  cases j <;> simp [jfuel] <;> omega

/-- An element's fuel is below its list's fuel plus one. -/
theorem jfuel_le_efuel (x : Json) : ∀ (xs : List Json), x ∈ xs → jfuel x < 1 + efuel xs := by
  intro xs
  induction xs with
  | nil => intro h; cases h
  | cons y ys ihy =>
    intro hx
    rcases List.mem_cons.mp hx with rfl | hmem
    · have := jfuel_pos x
      simp only [efuel]
      omega
    · have := ihy hmem
      simp only [efuel]
      have := jfuel_pos y
      omega

/-- A member value's fuel is below its list's fuel plus one. -/
theorem jfuel_le_mfuel (kv : String × Json) :
    ∀ (fs : List (String × Json)), kv ∈ fs → jfuel kv.2 < 1 + mfuel fs := by
  intro fs
  induction fs with
  | nil => intro h; cases h
  | cons kv2 fs2 ihf =>
    intro hkv
    rcases List.mem_cons.mp hkv with rfl | hmem
    · have := jfuel_pos kv.2
      obtain ⟨k2, v2⟩ := kv
      simp only [mfuel]
      omega
    · have := ihf hmem
      obtain ⟨k3, v3⟩ := kv2
      simp only [mfuel]
      have := jfuel_pos v3
      omega

/-- Expected-literal matching on the literal itself succeeds. -/
theorem expectChars_ull (rest : List Char) :
    expectChars ['u', 'l', 'l'] ('u' :: 'l' :: 'l' :: rest) = some rest := by
  simp [expectChars]

/-- Expected-literal matching on the literal itself succeeds. -/
theorem expectChars_rue (rest : List Char) :
    expectChars ['r', 'u', 'e'] ('r' :: 'u' :: 'e' :: rest) = some rest := by
  simp [expectChars]

/-- Expected-literal matching on the literal itself succeeds. -/
theorem expectChars_alse (rest : List Char) :
    expectChars ['a', 'l', 's', 'e'] ('a' :: 'l' :: 's' :: 'e' :: rest) = some rest := by
  simp [expectChars]

set_option maxHeartbeats 4000000 in
/-- The token dispatcher at the `null` literal (stated early so that the
dispatcher's equation lemmas are established once with a raised budget). -/
theorem parseVTok_null_step (fuel : Nat) (cs2 : List Char) :
    parseVTok fuel ('n' :: cs2)
      = (expectChars ['u', 'l', 'l'] cs2).map (fun rest => (Json.null, rest)) :=
  parseVTok.eq_2 fuel cs2

/-- The round trip of the codec: a rendered JSON value followed by a safe
continuation parses back to the same value and that continuation, for any
sufficient fuel. -/
theorem parseV_render : ∀ (j : Json) (fuel : Nat) (rest : List Char),
    jfuel j ≤ fuel → numGuard j rest →
    parseV fuel (renderJson j ++ rest) = some (j, rest) := by
  have main : ∀ (n : Nat) (j : Json), jfuel j ≤ n →
      ∀ (fuel : Nat) (rest : List Char), jfuel j ≤ fuel → numGuard j rest →
      parseV fuel (renderJson j ++ rest) = some (j, rest) := by
    intro n
    induction n with
    | zero =>
      intro j hj
      have := jfuel_pos j
      omega
    | succ n ihn =>
      intro j hj fuel rest hfuel hguard
      obtain ⟨f, rfl⟩ : ∃ f, fuel = f + 1 := by
        have := jfuel_pos j
        cases fuel with
        | zero => omega
        | succ f => exact ⟨f, rfl⟩
      cases j with
      | null =>
        show parseV (f + 1) (('n' :: 'u' :: 'l' :: 'l' :: []) ++ rest) = some (Json.null, rest)
        rw [List.cons_append, List.cons_append, List.cons_append, List.cons_append,
          List.nil_append, parseV.eq_2, skipWs_cons_not_ws 'n' _ (by decide),
          parseVTok.eq_2, expectChars_ull]
        rfl
      | bool b =>
        cases b with
        | true =>
          show parseV (f + 1) (('t' :: 'r' :: 'u' :: 'e' :: []) ++ rest)
              = some (Json.bool true, rest)
          rw [List.cons_append, List.cons_append, List.cons_append, List.cons_append,
            List.nil_append, parseV.eq_2, skipWs_cons_not_ws 't' _ (by decide),
            parseVTok.eq_3, expectChars_rue]
          rfl
        | false =>
          show parseV (f + 1) (('f' :: 'a' :: 'l' :: 's' :: 'e' :: []) ++ rest)
              = some (Json.bool false, rest)
          rw [List.cons_append, List.cons_append, List.cons_append, List.cons_append,
            List.cons_append, List.nil_append, parseV.eq_2, skipWs_cons_not_ws 'f' _ (by decide),
            parseVTok.eq_4, expectChars_alse]
          rfl
      | str s =>
        show parseV (f + 1) (('"' :: (escapeStr s.data ++ ['"'])) ++ rest)
            = some (Json.str s, rest)
        rw [List.cons_append, List.append_assoc, List.cons_append, List.nil_append,
          parseV.eq_2, skipWs_cons_not_ws '"' _ (by decide), parseVTok.eq_5,
          parseStringBody_escape s.data rest]
        show some (Json.str (String.mk s.data), rest) = some (Json.str s, rest)
        rw [string_mk_data]
      | num i =>
        have hguard2 : headNotDigit rest := hguard
        by_cases hi : i < 0
        · show parseV (f + 1) (renderNum i ++ rest) = some (Json.num i, rest)
          rw [renderNum, if_pos hi, List.cons_append, parseV.eq_2,
            skipWs_cons_not_ws '-' _ (by decide), parseVTok.eq_6,
            parseNat_natChars i.natAbs rest hguard2]
          have habs : -(i.natAbs : Int) = i := by omega
          show some (Json.num (-(i.natAbs : Int)), rest) = some (Json.num i, rest)
          rw [habs]
        · show parseV (f + 1) (renderNum i ++ rest) = some (Json.num i, rest)
          rw [renderNum, if_neg hi]
          obtain ⟨d, t, ht, hd⟩ := natCharsAux_head (i.toNat + 1) i.toNat (by omega)
          obtain ⟨hfA, hfB, hfC, hfD, hfE, hfF, hfG, hfH, hfI, hfJ, hfK, hfL⟩ :=
            digitChar_facts d hd
          have hcons : natChars i.toNat ++ rest = Nat.digitChar d :: (t ++ rest) := by
            rw [natChars, ht]
            rfl
          rw [hcons, parseV.eq_2, skipWs_cons_not_ws _ _ hfC,
            parseVTok.eq_9 f (Nat.digitChar d) (t ++ rest)
              (fun h => hfF h) (fun h => hfG h) (fun h => hfH h) (fun h => hfI h)
              (fun h => hfJ h) (fun _ _ h => hfK h) (fun _ _ h => hfL h),
            if_pos hfA]
          have hback : Nat.digitChar d :: (t ++ rest) = natChars i.toNat ++ rest := by
            rw [natChars, ht]
            rfl
          rw [hback, parseNat_natChars i.toNat rest hguard2]
          have htn : ((i.toNat : Nat) : Int) = i := by omega
          show some (Json.num ((i.toNat : Nat) : Int), rest) = some (Json.num i, rest)
          rw [htn]
      | arr xs =>
        have hj2 : jfuel (Json.arr xs) = 2 + efuel xs := rfl
        obtain ⟨f2, rfl⟩ : ∃ f2, f = f2 + 1 := by
          cases f with
          | zero => omega
          | succ f2 => exact ⟨f2, rfl⟩
        cases xs with
        | nil =>
          show parseV (f2 + 1 + 1) (('[' :: (renderElems [] ++ [']'])) ++ rest)
              = some (Json.arr [], rest)
          rw [List.cons_append, parseV.eq_2, skipWs_cons_not_ws '[' _ (by decide),
            parseVTok.eq_7]
          show (match skipWs ((renderElems [] ++ [']']) ++ rest) with
              | [] => none
              | d :: cs3 =>
                if d = ']' then some (Json.arr [], cs3)
                else (parseElems f2 (d :: cs3)).map (fun p => (Json.arr p.1, p.2)))
            = some (Json.arr [], rest)
          have : (renderElems [] ++ [']']) ++ rest = ']' :: rest := rfl
          rw [this, skipWs_cons_not_ws ']' _ (by decide)]
          show (if (']' : Char) = ']' then some (Json.arr [], rest)
              else (parseElems f2 (']' :: rest)).map (fun p => (Json.arr p.1, p.2)))
            = some (Json.arr [], rest)
          rw [if_pos rfl]
        | cons x xs2 =>
          have ihx : ∀ z ∈ x :: xs2, ∀ fuel rest, jfuel z ≤ fuel → numGuard z rest →
              parseV fuel (renderJson z ++ rest) = some (z, rest) := by
            intro z hz
            have hlt := jfuel_le_efuel z (x :: xs2) hz
            exact ihn z (by omega)
          show parseV (f2 + 1 + 1) (('[' :: (renderElems (x :: xs2) ++ [']'])) ++ rest)
              = some (Json.arr (x :: xs2), rest)
          rw [List.cons_append, parseV.eq_2, skipWs_cons_not_ws '[' _ (by decide),
            parseVTok.eq_7]
          obtain ⟨c0, t0, hhead, hws, hbr1, hbr2⟩ := render_head x
          obtain ⟨tl, htl⟩ : ∃ tl, renderElems (x :: xs2) = c0 :: tl := by
            cases xs2 with
            | nil => exact ⟨t0, by rw [show renderElems [x] = renderJson x from rfl, hhead]⟩
            | cons y t2 =>
              exact ⟨t0 ++ ',' :: renderElems (y :: t2), by
                rw [show renderElems (x :: y :: t2)
                    = renderJson x ++ ',' :: renderElems (y :: t2) from rfl, hhead]
                rfl⟩
          have hexp : (renderElems (x :: xs2) ++ [']']) ++ rest
              = c0 :: (tl ++ ']' :: rest) := by
            rw [htl]
            simp
          rw [hexp, skipWs_cons_not_ws c0 _ hws]
          show (if c0 = ']' then some (Json.arr [], tl ++ ']' :: rest)
              else (parseElems f2 (c0 :: (tl ++ ']' :: rest))).map
                (fun p => (Json.arr p.1, p.2)))
            = some (Json.arr (x :: xs2), rest)
          rw [if_neg hbr1]
          have hfold : c0 :: (tl ++ ']' :: rest) = renderElems (x :: xs2) ++ ']' :: rest := by
            rw [htl]
            rfl
          rw [hfold, parseElems_render (x :: xs2) ihx f2 rest (by simp) (by omega)]
          rfl
      | obj fs =>
        have hj2 : jfuel (Json.obj fs) = 2 + mfuel fs := rfl
        obtain ⟨f2, rfl⟩ : ∃ f2, f = f2 + 1 := by
          cases f with
          | zero => omega
          | succ f2 => exact ⟨f2, rfl⟩
        cases fs with
        | nil =>
          show parseV (f2 + 1 + 1) (('{' :: (renderMembers [] ++ ['}'])) ++ rest)
              = some (Json.obj [], rest)
          rw [List.cons_append, parseV.eq_2, skipWs_cons_not_ws '{' _ (by decide),
            parseVTok.eq_8]
          show (match skipWs ((renderMembers [] ++ ['}']) ++ rest) with
              | [] => none
              | d :: cs3 =>
                if d = '}' then some (Json.obj [], cs3)
                else (parseMembers f2 (d :: cs3)).map (fun p => (Json.obj p.1, p.2)))
            = some (Json.obj [], rest)
          have : (renderMembers [] ++ ['}']) ++ rest = '}' :: rest := rfl
          rw [this, skipWs_cons_not_ws '}' _ (by decide)]
          show (if ('}' : Char) = '}' then some (Json.obj [], rest)
              else (parseMembers f2 ('}' :: rest)).map (fun p => (Json.obj p.1, p.2)))
            = some (Json.obj [], rest)
          rw [if_pos rfl]
        | cons kv fs2 =>
          have ihkv : ∀ z ∈ kv :: fs2, ∀ fuel rest, jfuel z.2 ≤ fuel → numGuard z.2 rest →
              parseV fuel (renderJson z.2 ++ rest) = some (z.2, rest) := by
            intro z hz
            have hlt := jfuel_le_mfuel z (kv :: fs2) hz
            exact ihn z.2 (by omega)
          show parseV (f2 + 1 + 1) (('{' :: (renderMembers (kv :: fs2) ++ ['}'])) ++ rest)
              = some (Json.obj (kv :: fs2), rest)
          rw [List.cons_append, parseV.eq_2, skipWs_cons_not_ws '{' _ (by decide),
            parseVTok.eq_8]
          obtain ⟨tl, htl⟩ : ∃ tl, renderMembers (kv :: fs2) = '"' :: tl := by
            obtain ⟨k, v⟩ := kv
            cases fs2 with
            | nil => exact ⟨escapeStr k.data ++ '"' :: ':' :: renderJson v, rfl⟩
            | cons kv2 t2 =>
              exact ⟨(escapeStr k.data ++ '"' :: ':' :: renderJson v)
                  ++ ',' :: renderMembers (kv2 :: t2), rfl⟩
          have hexp : (renderMembers (kv :: fs2) ++ ['}']) ++ rest
              = '"' :: (tl ++ '}' :: rest) := by
            rw [htl]
            simp
          rw [hexp, skipWs_cons_not_ws '"' _ (by decide)]
          show (if ('"' : Char) = '}' then some (Json.obj [], tl ++ '}' :: rest)
              else (parseMembers f2 ('"' :: (tl ++ '}' :: rest))).map
                (fun p => (Json.obj p.1, p.2)))
            = some (Json.obj (kv :: fs2), rest)
          rw [if_neg (by decide)]
          have hfold : '"' :: (tl ++ '}' :: rest)
              = renderMembers (kv :: fs2) ++ '}' :: rest := by
            rw [htl]
            rfl
          rw [hfold, parseMembers_render (kv :: fs2) ihkv f2 rest (by simp) (by omega)]
          rfl
  intro j fuel rest
  exact main (jfuel j) j le_rfl fuel rest

/-- Induction over JSON values with access to array elements and member
values, via the fuel measure. -/
theorem json_ind (P : Json → Prop) (hnull : P Json.null) (hbool : ∀ b, P (Json.bool b))
    (hnum : ∀ i, P (Json.num i)) (hstr : ∀ s, P (Json.str s))
    (harr : ∀ xs, (∀ x ∈ xs, P x) → P (Json.arr xs))
    (hobj : ∀ fs, (∀ kv ∈ fs, P kv.2) → P (Json.obj fs)) : ∀ j, P j := by
  have main : ∀ n j, jfuel j ≤ n → P j := by
    intro n
    induction n with
    | zero =>
      intro j h
      have := jfuel_pos j
      omega
    | succ n ihn =>
      intro j hj
      cases j with
      | null => exact hnull
      | bool b => exact hbool b
      | num i => exact hnum i
      | str s => exact hstr s
      | arr xs =>
        refine harr xs (fun x hx => ihn x ?_)
        have h1 := jfuel_le_efuel x xs hx
        have h2 : jfuel (Json.arr xs) = 2 + efuel xs := rfl
        omega
      | obj fs =>
        refine hobj fs (fun kv hkv => ihn kv.2 ?_)
        have h1 := jfuel_le_mfuel kv fs hkv
        have h2 : jfuel (Json.obj fs) = 2 + mfuel fs := rfl
        omega
  exact fun j => main (jfuel j) j le_rfl

/-- Every rendered value is nonempty. -/
theorem render_len_pos (j : Json) : 1 ≤ (renderJson j).length := by
  obtain ⟨c, t, h, _⟩ := render_head j
  rw [h]
  simp

/-- Fuel for an element list is at most twice its rendered length plus two. -/
theorem efuel_le_len (xs : List Json)
    (ih : ∀ x ∈ xs, jfuel x ≤ 2 * (renderJson x).length) :
    efuel xs ≤ 2 * (renderElems xs).length + 2 := by
  induction xs with
  | nil => simp [efuel]
  | cons x tail ihl =>
    have hx := ih x (by simp)
    cases tail with
    | nil =>
      have h1 : efuel [x] = 1 + jfuel x + 0 := rfl
      have h2 : renderElems [x] = renderJson x := rfl
      rw [h1, h2]
      omega
    | cons y t2 =>
      have h1 : efuel (x :: y :: t2) = 1 + jfuel x + efuel (y :: t2) := rfl
      have h2 : renderElems (x :: y :: t2) = renderJson x ++ ',' :: renderElems (y :: t2) :=
        rfl
      have h3 := ihl (fun z hz => ih z (by simp [hz]))
      rw [h1, h2]
      simp only [List.length_append, List.length_cons]
      omega

/-- Fuel for a member list is at most twice its rendered length plus two. -/
theorem mfuel_le_len (fs : List (String × Json))
    (ih : ∀ kv ∈ fs, jfuel kv.2 ≤ 2 * (renderJson kv.2).length) :
    mfuel fs ≤ 2 * (renderMembers fs).length + 2 := by
  induction fs with
  | nil => simp [mfuel]
  | cons kv tail ihl =>
    obtain ⟨k, v⟩ := kv
    have hv : jfuel v ≤ 2 * (renderJson v).length := ih (k, v) (by simp)
    cases tail with
    | nil =>
      have h1 : mfuel [(k, v)] = 1 + jfuel v + 0 := rfl
      have h2 : renderMembers [(k, v)]
          = '"' :: (escapeStr k.data ++ '"' :: ':' :: renderJson v) := rfl
      rw [h1, h2]
      simp only [List.length_cons, List.length_append]
      omega
    | cons kv2 t2 =>
      have h1 : mfuel ((k, v) :: kv2 :: t2) = 1 + jfuel v + mfuel (kv2 :: t2) := rfl
      have h2 : renderMembers ((k, v) :: kv2 :: t2)
          = ('"' :: (escapeStr k.data ++ '"' :: ':' :: renderJson v))
            ++ ',' :: renderMembers (kv2 :: t2) := rfl
      have h3 := ihl (fun z hz => ih z (by simp [hz]))
      rw [h1, h2]
      simp only [List.length_append, List.length_cons]
      omega

/-- The fuel a value needs is at most twice its rendered length. -/
theorem jfuel_le_len : ∀ j : Json, jfuel j ≤ 2 * (renderJson j).length := by
  refine json_ind _ ?_ ?_ ?_ ?_ ?_ ?_
  · show jfuel Json.null ≤ 2 * 4
    simp [jfuel]
  · intro b
    cases b with
    | true => show jfuel (Json.bool true) ≤ 2 * 4; simp [jfuel]
    | false => show jfuel (Json.bool false) ≤ 2 * 5; simp [jfuel]
  · intro i
    have h1 : jfuel (Json.num i) = 1 := rfl
    have h2 := render_len_pos (Json.num i)
    omega
  · intro s
    have h1 : jfuel (Json.str s) = 1 := rfl
    have h2 := render_len_pos (Json.str s)
    omega
  · intro xs ih
    have h1 : jfuel (Json.arr xs) = 2 + efuel xs := rfl
    have h2 : renderJson (Json.arr xs) = '[' :: (renderElems xs ++ [']']) := rfl
    have h3 := efuel_le_len xs ih
    rw [h1, h2]
    simp only [List.length_cons, List.length_append]
    omega
  · intro fs ih
    have h1 : jfuel (Json.obj fs) = 2 + mfuel fs := rfl
    have h2 : renderJson (Json.obj fs) = '{' :: (renderMembers fs ++ ['}']) := rfl
    have h3 := mfuel_le_len fs ih
    rw [h1, h2]
    simp only [List.length_cons, List.length_append]
    omega

/-- Full-document round trip: rendering any JSON value and parsing the text
back as one complete document recovers the value. -/
theorem jsonFromChars_render (j : Json) : jsonFromChars (renderJson j) = some j := by
  have hfuel : jfuel j ≤ 2 * (renderJson j).length + 2 := by
    have := jfuel_le_len j
    omega
  have h := parseV_render j (2 * (renderJson j).length + 2) [] hfuel (numGuard_nil j)
  rw [List.append_nil] at h
  rw [jsonFromChars, h]
  rfl

/-- No escape expansion contains a newline character. -/
theorem escapeChar_no_nl (c : Char) : '\n' ∉ escapeChar c := by
  have h16 : ∀ d, d < 16 → Nat.digitChar d ≠ '\n' := by decide
  by_cases h1 : c = '"'
  · subst h1; decide
  · by_cases h2 : c = '\\'
    · subst h2; decide
    · by_cases h3 : c.toNat = 8
      · rw [escapeChar, if_neg h1, if_neg h2, if_pos h3]; decide
      · by_cases h4 : c.toNat = 9
        · rw [escapeChar, if_neg h1, if_neg h2, if_neg h3, if_pos h4]; decide
        · by_cases h5 : c.toNat = 10
          · rw [escapeChar, if_neg h1, if_neg h2, if_neg h3, if_neg h4, if_pos h5]; decide
          · by_cases h6 : c.toNat = 12
            · rw [escapeChar, if_neg h1, if_neg h2, if_neg h3, if_neg h4, if_neg h5,
                if_pos h6]
              decide
            · by_cases h7 : c.toNat = 13
              · rw [escapeChar, if_neg h1, if_neg h2, if_neg h3, if_neg h4, if_neg h5,
                  if_neg h6, if_pos h7]
                decide
              · by_cases h8 : c.toNat < 32
                · rw [escapeChar, if_neg h1, if_neg h2, if_neg h3, if_neg h4, if_neg h5,
                    if_neg h6, if_neg h7, if_pos h8]
                  intro hmem
                  simp only [List.mem_cons] at hmem
                  rcases hmem with h | h | h | h | h | h | h
                  · exact absurd h.symm (by decide)
                  · exact absurd h.symm (by decide)
                  · exact absurd h.symm (by decide)
                  · exact absurd h.symm (by decide)
                  · exact h16 (c.toNat / 16) (by omega) h.symm
                  · exact h16 (c.toNat % 16) (by omega) h.symm
                  · exact absurd h (List.not_mem_nil _)
                · rw [escapeChar, if_neg h1, if_neg h2, if_neg h3, if_neg h4, if_neg h5,
                    if_neg h6, if_neg h7, if_neg h8]
                  intro hmem
                  simp only [List.mem_singleton] at hmem
                  have : c.toNat = 10 := by rw [← hmem]; decide
                  omega

/-- No escaped string body contains a newline character. -/
theorem escapeStr_no_nl (s : List Char) : '\n' ∉ escapeStr s := by
  intro hmem
  rw [escapeStr] at hmem
  obtain ⟨l, hl, hcl⟩ := List.mem_flatten.mp hmem
  obtain ⟨c, _, rfl⟩ := List.mem_map.mp hl
  exact escapeChar_no_nl c hcl

/-- No rendered natural number contains a newline character. -/
theorem natCharsAux_no_nl : ∀ fuel n, '\n' ∉ natCharsAux fuel n := by
  have h16 : ∀ d, d < 16 → Nat.digitChar d ≠ '\n' := by decide
  intro fuel
  induction fuel with
  | zero => intro n; simp [natCharsAux]
  | succ f ihf =>
    intro n
    by_cases hn : n < 10
    · rw [natCharsAux, if_pos hn]
      intro hmem
      simp only [List.mem_singleton] at hmem
      exact h16 n (by omega) hmem.symm
    · rw [natCharsAux, if_neg hn]
      intro hmem
      rcases List.mem_append.mp hmem with h | h
      · exact ihf (n / 10) h
      · simp only [List.mem_singleton] at h
        exact h16 (n % 10) (by omega) h.symm

/-- No rendered number contains a newline character. -/
theorem renderNum_no_nl (i : Int) : '\n' ∉ renderNum i := by
  rw [renderNum]
  by_cases hi : i < 0
  · rw [if_pos hi]
    intro hmem
    rcases List.mem_cons.mp hmem with h | h
    · exact absurd h (by decide)
    · exact natCharsAux_no_nl _ _ h
  · rw [if_neg hi]
    exact natCharsAux_no_nl _ _

/-- No rendered element list contains a newline, given that no element's
rendering does. -/
theorem renderElems_no_nl (xs : List Json)
    (ih : ∀ x ∈ xs, '\n' ∉ renderJson x) : '\n' ∉ renderElems xs := by
  induction xs with
  | nil => simp [renderElems]
  | cons x tail ihl =>
    cases tail with
    | nil => exact fun h => ih x (by simp) h
    | cons y t2 =>
      intro hmem
      have h2 : renderElems (x :: y :: t2) = renderJson x ++ ',' :: renderElems (y :: t2) :=
        rfl
      rw [h2] at hmem
      rcases List.mem_append.mp hmem with h | h
      · exact ih x (by simp) h
      · rcases List.mem_cons.mp h with h | h
        · exact absurd h (by decide)
        · exact ihl (fun z hz => ih z (by simp [hz])) h

/-- No rendered member list contains a newline, given that no member value's
rendering does. -/
theorem renderMembers_no_nl (fs : List (String × Json))
    (ih : ∀ kv ∈ fs, '\n' ∉ renderJson kv.2) : '\n' ∉ renderMembers fs := by
  induction fs with
  | nil => simp [renderMembers]
  | cons kv tail ihl =>
    obtain ⟨k, v⟩ := kv
    have hentry : '\n' ∉ '"' :: (escapeStr k.data ++ '"' :: ':' :: renderJson v) := by
      intro hmem
      rcases List.mem_cons.mp hmem with h | h
      · exact absurd h (by decide)
      · rcases List.mem_append.mp h with h | h
        · exact escapeStr_no_nl k.data h
        · rcases List.mem_cons.mp h with h | h
          · exact absurd h (by decide)
          · rcases List.mem_cons.mp h with h | h
            · exact absurd h (by decide)
            · exact ih (k, v) (by simp) h
    cases tail with
    | nil => exact hentry
    | cons kv2 t2 =>
      intro hmem
      have h2 : renderMembers ((k, v) :: kv2 :: t2)
          = ('"' :: (escapeStr k.data ++ '"' :: ':' :: renderJson v))
            ++ ',' :: renderMembers (kv2 :: t2) := rfl
      rw [h2] at hmem
      rcases List.mem_append.mp hmem with h | h
      · exact hentry h
      · rcases List.mem_cons.mp h with h | h
        · exact absurd h (by decide)
        · exact ihl (fun z hz => ih z (by simp [hz])) h

/-- No rendered JSON value contains a newline character: string escaping
keeps the wire text free of the frame delimiter. -/
theorem render_no_nl : ∀ j : Json, '\n' ∉ renderJson j := by
  refine json_ind _ ?_ ?_ ?_ ?_ ?_ ?_
  · decide
  · intro b; cases b <;> decide
  · intro i
    exact renderNum_no_nl i
  · intro s
    intro hmem
    rcases List.mem_cons.mp hmem with h | h
    · exact absurd h (by decide)
    · rcases List.mem_append.mp h with h | h
      · exact escapeStr_no_nl s.data h
      · exact absurd h (by decide)
  · intro xs ih
    intro hmem
    rcases List.mem_cons.mp hmem with h | h
    · exact absurd h (by decide)
    · rcases List.mem_append.mp h with h | h
      · exact renderElems_no_nl xs ih h
      · exact absurd h (by decide)
  · intro fs ih
    intro hmem
    rcases List.mem_cons.mp hmem with h | h
    · exact absurd h (by decide)
    · rcases List.mem_append.mp h with h | h
      · exact renderMembers_no_nl fs ih h
      · exact absurd h (by decide)

/-- UTF-8 encoding distributes over concatenation. -/
theorem utf8Str_append (a b : List Char) : utf8Str (a ++ b) = utf8Str a ++ utf8Str b := by
  simp [utf8Str]

/-- The delimiter byte appears in a character's UTF-8 encoding only for the
newline character itself. -/
theorem ten_not_mem_utf8Char (c : Char) (h : c ≠ '\n') : (10 : Nat) ∉ utf8Char c := by
  have hc10 : c.toNat ≠ 10 := by
    intro heq
    apply h
    have h1 : Char.ofNat c.toNat = Char.ofNat 10 := by rw [heq]
    rw [Char.ofNat_toNat] at h1
    rw [h1]
  rw [utf8Char]
  by_cases h1 : c.toNat < 0x80
  · simp only [if_pos h1, List.mem_singleton]
    omega
  · by_cases h2 : c.toNat < 0x800
    · simp only [if_neg h1, if_pos h2, List.mem_cons, List.not_mem_nil, or_false]
      intro hmem
      rcases hmem with hx | hx <;> omega
    · by_cases h3 : c.toNat < 0x10000
      · simp only [if_neg h1, if_neg h2, if_pos h3, List.mem_cons, List.not_mem_nil,
          or_false]
        intro hmem
        rcases hmem with hx | hx | hx <;> omega
      · simp only [if_neg h1, if_neg h2, if_neg h3, List.mem_cons, List.not_mem_nil,
          or_false]
        intro hmem
        rcases hmem with hx | hx | hx | hx <;> omega

/-- The delimiter byte does not appear in the UTF-8 encoding of
newline-free text. -/
theorem ten_not_mem_utf8Str (cs : List Char) (h : ∀ c ∈ cs, c ≠ '\n') :
    (10 : Nat) ∉ utf8Str cs := by
  intro hmem
  rw [utf8Str] at hmem
  obtain ⟨l, hl, hbl⟩ := List.mem_flatten.mp hmem
  obtain ⟨c, hc, rfl⟩ := List.mem_map.mp hl
  exact ten_not_mem_utf8Char c (h c hc) hbl

/-- Decoding the UTF-8 bytes of one character recovers that character: the
encoder only produces well-formed, shortest-form sequences of valid scalar
values, so every branch of the validating decoder accepts them. -/
theorem utf8Decode_utf8Char (c : Char) (bs : List Nat) :
    utf8Decode (utf8Char c ++ bs) = (utf8Decode bs).map (fun cs => c :: cs) := by
  have hv : c.toNat < 0xD800 ∨ (0xDFFF < c.toNat ∧ c.toNat < 0x110000) := c.valid
  simp only [utf8Char]
  by_cases h1 : c.toNat < 0x80
  · rw [if_pos h1, List.singleton_append, utf8Decode.eq_2, if_pos h1, Char.ofNat_toNat]
  · rw [if_neg h1]
    by_cases h2 : c.toNat < 0x800
    · rw [if_pos h2, List.cons_append, List.singleton_append, utf8Decode.eq_2,
        if_neg (by omega), if_neg (by omega), if_pos (by omega), utf8Cont1.eq_1,
        if_pos ⟨by omega, by omega⟩]
      have hVe : (0xC0 + c.toNat / 0x40 - 0xC0) * 0x40 + (0x80 + c.toNat % 0x40 - 0x80)
          = c.toNat := by omega
      simp only [hVe, Char.ofNat_toNat]
    · rw [if_neg h2]
      by_cases h3 : c.toNat < 0x10000
      · rw [if_pos h3, List.cons_append, List.cons_append, List.singleton_append,
          utf8Decode.eq_2, if_neg (by omega), if_neg (by omega), if_neg (by omega),
          if_pos (by omega), utf8Cont2.eq_1,
          if_pos ⟨by omega, by omega, by omega, by omega⟩]
        have hVe : (0xE0 + c.toNat / 0x1000 - 0xE0) * 0x1000
            + (0x80 + c.toNat / 0x40 % 0x40 - 0x80) * 0x40
            + (0x80 + c.toNat % 0x40 - 0x80) = c.toNat := by omega
        simp only [hVe]
        rw [if_pos (show 0x800 ≤ c.toNat ∧ (c.toNat < 0xD800 ∨ 0xDFFF < c.toNat) by omega)]
        simp only [Char.ofNat_toNat]
      · rw [if_neg h3, List.cons_append, List.cons_append, List.cons_append,
          List.singleton_append, utf8Decode.eq_2, if_neg (by omega), if_neg (by omega),
          if_neg (by omega), if_neg (by omega), if_pos (by omega), utf8Cont3.eq_1,
          if_pos ⟨by omega, by omega, by omega, by omega, by omega, by omega⟩]
        have hVe : (0xF0 + c.toNat / 0x40000 - 0xF0) * 0x40000
            + (0x80 + c.toNat / 0x1000 % 0x40 - 0x80) * 0x1000
            + (0x80 + c.toNat / 0x40 % 0x40 - 0x80) * 0x40
            + (0x80 + c.toNat % 0x40 - 0x80) = c.toNat := by omega
        simp only [hVe]
        rw [if_pos (show 0x10000 ≤ c.toNat ∧ c.toNat ≤ 0x10FFFF by omega)]
        simp only [Char.ofNat_toNat]

/-- Decoding the UTF-8 bytes of a character sequence recovers the sequence. -/
theorem utf8Decode_utf8Str (cs : List Char) : utf8Decode (utf8Str cs) = some cs := by
  induction cs with
  | nil => rfl
  | cons c cs ih =>
    have hsplit : utf8Str (c :: cs) = utf8Char c ++ utf8Str cs := by
      simp [utf8Str]
    rw [hsplit, utf8Decode_utf8Char, ih]
    rfl

/-- C8: encoding a response always succeeds and yields the UTF-8 text of its
JSON object followed by exactly one delimiter byte — the delimiter occurs
nowhere in the payload — and the bytes minus the delimiter decode back to the
text, which parses as one JSON document into the identical object. -/
theorem C8_encode_roundtrip (r : Response) :
    encodeResponse r = utf8Str (renderJson (responseToJson r)) ++ [LINE_FEED]
    ∧ LINE_FEED ∉ utf8Str (renderJson (responseToJson r))
    ∧ utf8Decode (utf8Str (renderJson (responseToJson r)))
        = some (renderJson (responseToJson r))
    ∧ jsonFromChars (renderJson (responseToJson r)) = some (responseToJson r) := by
  refine ⟨?_, ?_, utf8Decode_utf8Str _, jsonFromChars_render (responseToJson r)⟩
  · rw [encodeResponse, utf8Str_append]
    rfl
  · exact ten_not_mem_utf8Str _ (fun c hc heq => render_no_nl (responseToJson r) (heq ▸ hc))

end Opcuad
